import Mathlib

/-!
# minibalancer: request dispatch and balancing engine

A shallow embedding of the Go sources under `internal/` (`group.go`,
`roundrobin.go`, `failover.go`, `endpoint.go`, `psession.go`, `bind.go`,
`utility.go`) together with theorems about them.

Modelling conventions

* A Go string is a finite sequence of code units; it is embedded as `List Char`.
  Every string operation used by the sources (`==`, `strings.HasPrefix`,
  `strings.Cut`, `strings.Replace`, `strings.Join`, concatenation) works
  position by position, so the embedding does not depend on the alphabet.
* A `*Endpoint` / `*Group` pointer is embedded as the position of the pointee in
  the slice that owns it (slices are never resized after start-up).
* `atomic.Uint32` / `atomic.Uint64` values are natural numbers reduced modulo
  `2^32` / `2^64` at every arithmetic step.
* The code is run sequentially: no other goroutine (another request, the health
  monitor) touches the atomics during a call.
* A Go function that may recurse without an a-priori bound takes a `fuel`
  argument and returns `none` when the fuel is exhausted.
-/

namespace Minibalancer

/-! ## Go strings -/

/-- Go strings as sequences of code units. -/
abbrev GoString := List Char

/-- Go `strings.HasPrefix(s, prefix)`. -/
def HasPrefix (s pre : GoString) : Bool :=
  pre.isPrefixOf s

/-- Go `strings.Index(s, substr)`: position of the first occurrence of `substr` in `s`,
`none` for Go's `-1`. -/
def Index : GoString → GoString → Option Nat
  | [], substr => if substr = [] then some 0 else none
  | c :: s, substr =>
    if HasPrefix (c :: s) substr then some 0
    else (Index s substr).map (· + 1)

/-- Go `strings.Replace(s, old, new, 1)`: `s` with the first occurrence of `old` replaced by
`new` (the source only ever asks for one replacement). -/
def Replace (s old new : GoString) : GoString :=
  if old = new then s
  else
    match Index s old with
    | none => s
    | some j => s.take j ++ new ++ s.drop (j + old.length)

/-- Go `strings.Cut(s, sep)` for a one-character separator, keeping only `before`:
the text in front of the first `sep`, or all of `s` when `sep` does not occur. -/
def CutBefore (s : GoString) (sep : Char) : GoString :=
  s.takeWhile (· ≠ sep)

/-- Go `strings.Join(elems, sep)`. -/
def Join (elems : List GoString) (sep : GoString) : GoString :=
  sep.intercalate elems

/-! ## Machine integers -/

/-- Conversion `uint32(n)`. -/
def uint32 (n : Nat) : Nat := n % 2 ^ 32

/-- Subtraction of `uint32` values. -/
def uint32Sub (a b : Nat) : Nat := (a + 2 ^ 32 - b % 2 ^ 32) % 2 ^ 32

/-- Addition of `uint32` values. -/
def uint32Add (a b : Nat) : Nat := (a + b) % 2 ^ 32

/-- Addition of `uint64` values. -/
def uint64Add (a b : Nat) : Nat := (a + b) % 2 ^ 64

/-- Subtraction of `uint64` values. -/
def uint64Sub (a b : Nat) : Nat := (a + 2 ^ 64 - b % 2 ^ 64) % 2 ^ 64

/-! ## Data model -/

/-- The `Endpoint` struct of `endpoint.go` (the reverse proxy it owns is the function
`proxyServeHTTP` below). -/
structure Endpoint where
  Address : GoString
  ProxyPass : GoString
  ActiveConnections : Nat
  Alive : Bool
  Signature : GoString
  deriving DecidableEq, Repr

/-- What a Go call `(T, error)` can do: return a value, return an error, or panic. -/
inductive Result (α : Type) where
  | ok (a : α)
  | err (msg : String)
  | panic
  deriving DecidableEq, Repr

/-- Outcome of one balancer call: the returned endpoint (as a position in `endpoints`)
or error, the value of `roundRobin.endpointIndex` after the call, and the number of
`Alive.Load()` reads the call made. -/
structure Selection where
  result : Result Nat
  endpointIndex : Nat
  probes : Nat
  deriving DecidableEq, Repr

/-- Go `atomic.Uint32.CompareAndSwap(old, new)` on a cell holding `cur`:
the success flag and the new content of the cell. -/
def CompareAndSwap (cur old new : Nat) : Bool × Nat :=
  if cur = old then (true, new) else (false, cur)

/-! ## roundrobin.go -/

/-- The function `roundRobin.balanced` of `roundrobin.go`.
`endpointIndex` is the content of the atomic index, `retriedIndexes` the slice threaded
through the recursion (`nil` is `[]`), `probes` counts the `Alive.Load()` reads so far. -/
def roundRobin.balanced (endpoints : List Endpoint) :
    Nat → Nat → List Nat → Nat → Option Selection
  | 0, _, _, _ => none
  | fuel + 1, endpointIndex, retriedIndexes, probes =>
    let oldIndex := endpointIndex
    match endpoints.get? oldIndex with
    | none => some ⟨.panic, endpointIndex, probes⟩
    | some choosenEndp =>
      let endpointsLen := endpoints.length
      let newIndex :=
        if oldIndex < uint32Sub (uint32 endpointsLen) 1 then uint32Add oldIndex 1 else 0
      if choosenEndp.Alive then
        let cas := CompareAndSwap endpointIndex oldIndex newIndex
        if cas.1 then
          some ⟨.ok oldIndex, cas.2, probes + 1⟩
        else
          roundRobin.balanced endpoints fuel cas.2 [] (probes + 1)
      else
        let cas := CompareAndSwap endpointIndex oldIndex newIndex
        if retriedIndexes.length = endpointsLen then
          some ⟨.err "all endpoints down", cas.2, probes + 1⟩
        else
          let found := retriedIndexes.any (· == oldIndex)
          let retriedIndexes := if !found then retriedIndexes ++ [oldIndex] else retriedIndexes
          roundRobin.balanced endpoints fuel cas.2 retriedIndexes (probes + 1)

/-! ## failover.go -/

/-- The loop of `failover.balanced`, at the slice suffix starting at position `pos`. -/
def failover.scan : List Endpoint → Nat → Nat → Result Nat × Nat
  | [], _, probes => (.err "all endpoints are down", probes)
  | e :: rest, pos, probes =>
    if e.Alive then (.ok pos, probes + 1) else failover.scan rest (pos + 1) (probes + 1)

/-- The function `failover.balanced` of `failover.go`. -/
def failover.balanced (endpoints : List Endpoint) : Result Nat :=
  (failover.scan endpoints 0 0).1

/-! ## group.go: balancing -/

/-- The `balance` interface value of a started group: `&roundRobin{}` with its atomic
index, or `&failover{}`. -/
inductive balance where
  | roundRobin (endpointIndex : Nat)
  | failover
  deriving DecidableEq, Repr

/-- The `Group` struct of `group.go`. -/
structure Group where
  Address : GoString
  Path : GoString
  SessionPersistence : Bool
  Endpoints : List Endpoint
  balance : balance
  deriving DecidableEq, Repr

/-- The call `group.balance.balanced(endpoints, nil)`: the result and the balancer afterwards. -/
def balance.balanced (b : balance) (fuel : Nat) (endpoints : List Endpoint) :
    Option (Result Nat × balance) :=
  match b with
  | .roundRobin endpointIndex =>
    (roundRobin.balanced endpoints fuel endpointIndex [] 0).map
      fun s => (s.result, .roundRobin s.endpointIndex)
  | .failover => some (failover.balanced endpoints, .failover)

/-- The function `Group.getBalancedEndpoint` of `group.go`: the result and the balancer
afterwards. -/
def Group.getBalancedEndpoint (group : Group) (fuel : Nat) (endpoints : List Endpoint) :
    Option (Result Nat × Minibalancer.balance) :=
  match endpoints with
  | [] => some (.err "no endpoints available", group.balance)
  | [endpoint] =>
    if endpoint.Alive then some (.ok 0, group.balance)
    else some (.err "the only endpoint available is unreachable", group.balance)
  | _ => group.balance.balanced fuel endpoints

/-- The endpoint at position `i` is alive. -/
def aliveAt (endpoints : List Endpoint) (i : Nat) : Bool :=
  match endpoints.get? i with
  | some e => e.Alive
  | none => false

/-! ## psession.go -/

/-- The `StatelessSessionPersistence` struct of `psession.go` (the process-wide
`runningConf.Settings.PersistentSession`). -/
structure StatelessSessionPersistence where
  CookieName : GoString
  CookieSettings : List GoString
  deriving DecidableEq, Repr

/-- The keys of the per-request retry counters kept in the request context. -/
inductive contextKey where
  | RETRY_SAME_ENDP
  | RETRY_ANOTHER_ENDP
  deriving DecidableEq, Repr

/-- The constant `maxRetry` of `endpoint.go`. -/
def maxRetry : Nat := 3

/-- The parts of `*http.Request` the sources read: `r.Host`, `r.URL.Path`, `r.Cookies()` as
(name, value) pairs, and the values stored in `r.Context()`, innermost first. -/
structure Request where
  Host : GoString
  Path : GoString
  Cookies : List (GoString × GoString)
  ctx : List (contextKey × Nat)
  deriving DecidableEq, Repr

/-- The parts of `http.ResponseWriter` the sources write: the header entries added by this
program, the status code once written, and the endpoint whose response was relayed. -/
structure ResponseWriter where
  header : List (GoString × GoString)
  status : Option Nat
  origin : Option Nat
  deriving DecidableEq, Repr

/-- Go `http.Error(w, msg, code)`: writes the status unless one was written before. -/
def httpError (w : ResponseWriter) (code : Nat) : ResponseWriter :=
  match w.status with
  | none => { w with status := some code }
  | some _ => w

/-- The reverse proxy relaying the response of endpoint `i` with status `code`. -/
def relay (w : ResponseWriter) (i code : Nat) : ResponseWriter :=
  match w.status with
  | none => { w with status := some code, origin := some i }
  | some _ => w

/-- The function `getStatelessPersistentSessionCookieName` of `psession.go`. -/
def StatelessSessionPersistence.getStatelessPersistentSessionCookieName
    (s : StatelessSessionPersistence) : GoString :=
  if s.CookieName = [] then "_gbsps".toList else s.CookieName

/-- The loop of `StatelessSessionPersistence.getCookie`: the value of the first cookie named
`name`, the zero value `""` when there is none. -/
def cookieLoop (name : GoString) : List (GoString × GoString) → GoString
  | [] => []
  | c :: rest => if c.1 = name then c.2 else cookieLoop name rest

/-- The function `StatelessSessionPersistence.getCookie` of `psession.go`. -/
def StatelessSessionPersistence.getCookie (s : StatelessSessionPersistence) (r : Request) :
    Result GoString :=
  let cookieVal := cookieLoop s.getStatelessPersistentSessionCookieName r.Cookies
  if cookieVal = [] then .err "no persistent session cookie found" else .ok cookieVal

/-- The function `StatelessSessionPersistence.setCookie` of `psession.go`. -/
def StatelessSessionPersistence.setCookie (s : StatelessSessionPersistence)
    (w : ResponseWriter) (group : Group) (endpoint : Endpoint) : ResponseWriter :=
  let buffer : GoString :=
    s.getStatelessPersistentSessionCookieName ++ "=".toList ++ endpoint.Signature
  let buffer := if group.Path ≠ [] then buffer ++ "; Path=".toList ++ group.Path else buffer
  let buffer :=
    if s.CookieSettings.length ≠ 0 then buffer ++ "; ".toList ++ Join s.CookieSettings "; ".toList
    else buffer
  { w with header := w.header ++ [("Set-Cookie".toList, buffer)] }

/-- The signature loop of `StatelessSessionPersistence.get`, at the slice suffix starting at
position `pos`. -/
def sessionScan (cookieval : GoString) : List Endpoint → Nat → Result Nat
  | [], _ => .err "no persistent session cookie found: all signatures missmatched"
  | endp :: rest, pos =>
    if endp.Signature = cookieval then .ok pos else sessionScan cookieval rest (pos + 1)

/-- The function `StatelessSessionPersistence.get` of `psession.go`. -/
def StatelessSessionPersistence.get (s : StatelessSessionPersistence) (r : Request)
    (endpoints : List Endpoint) : Result Nat :=
  match s.getCookie r with
  | .ok cookieval => sessionScan cookieval endpoints 0
  | .err e => .err e
  | .panic => .panic

/-! ## endpoint.go and group.go: the request path -/

/-- What the instrumented request path records, in order. -/
inductive Event where
  | handleRequest
  | ServeHTTP (endpoint : Nat)
  | roundTrip (endpoint : Nat)
  | storeDead (endpoint : Nat)
  deriving DecidableEq, Repr

/-- How one upstream round trip of the reverse proxy ends: the upstream answers and the answer
is relayed; the transport fails with an error that is not a cancellation; the transport fails
because the request context was cancelled; or the upstream answers and copying the body to the
client fails, on which `httputil.ReverseProxy` panics with `http.ErrAbortHandler`. -/
inductive RoundTrip where
  | response (status : Nat)
  | failed
  | canceled
  | aborted (status : Nat)
  deriving DecidableEq, Repr

/-- The environment: what the round trip to endpoint `i` does, given everything that happened
to this request before. -/
abbrev Upstream := List Event → Nat → RoundTrip

/-- How a Go call ends. -/
inductive Exit where
  | returned
  | panicked
  deriving DecidableEq, Repr

/-- The state a request works on: the group with its endpoints' atomics and its balancer,
the response writer, and the record of events. -/
structure World where
  group : Group
  w : ResponseWriter
  log : List Event
  deriving DecidableEq, Repr

/-- Apply `f` to the endpoint at position `i`. -/
def updateAt (f : Endpoint → Endpoint) : List Endpoint → Nat → List Endpoint
  | [], _ => []
  | e :: es, 0 => f e :: es
  | e :: es, i + 1 => e :: updateAt f es i

/-- Apply `f` to the endpoint at position `i` of the group of `s`. -/
def World.onEndpoint (s : World) (i : Nat) (f : Endpoint → Endpoint) : World :=
  { s with group := { s.group with Endpoints := updateAt f s.group.Endpoints i } }

/-- Append an event to the record. -/
def World.record (s : World) (e : Event) : World :=
  { s with log := s.log ++ [e] }

/-- The function `getRetryFromContext` of `endpoint.go`. -/
def getRetryFromContext (key : contextKey) (r : Request) : Nat :=
  match r.ctx.lookup key with
  | some retry => retry
  | none => 0

/-- Go `r.WithContext(context.WithValue(r.Context(), key, val))`. -/
def Request.WithValue (r : Request) (key : contextKey) (val : Nat) : Request :=
  { r with ctx := (key, val) :: r.ctx }

/-- Number of upstream round trips in a record. -/
def roundTrips (log : List Event) : Nat :=
  log.countP fun e => match e with
    | .roundTrip _ => true
    | _ => false

/-- Number of upstream round trips to endpoint `i` in a record. -/
def roundTripsTo (log : List Event) (i : Nat) : Nat :=
  log.count (.roundTrip i)

/-- Number of `Endpoint.ServeHTTP` calls on endpoint `i` in a record. -/
def servesOf (log : List Event) (i : Nat) : Nat :=
  log.count (.ServeHTTP i)

/-- The affinity lookup of `Group.handleRequest` (`group.go`, lines 41-42): the endpoint named
by the cookie of the request when `get` finds one and it is alive, that is, when
`e != nil || !chosenEndp.Alive.Load()` is false. -/
def Group.sticky (group : Group) (conf : StatelessSessionPersistence) (r : Request) :
    Option Nat :=
  match conf.get r group.Endpoints with
  | .ok chosenEndp => if aliveAt group.Endpoints chosenEndp then some chosenEndp else none
  | _ => none

/-- The endpoint selection of `Group.handleRequest` (`group.go`, lines 35-53 and 56-62: all of
the function except the final call `chosenEndp.ServeHTTP(w, r)`), on both branches of
`group.SessionPersistence`. It returns the chosen endpoint, or an error after answering 503,
together with the state it leaves: the balancer after the call and the `Set-Cookie` header
when `setCookie` ran. -/
def Group.choose (conf : StatelessSessionPersistence) (fuel : Nat) (r : Request) (s : World) :
    Option (Result Nat × World) :=
  let group := s.group
  let endpoints := group.Endpoints
  match (if group.SessionPersistence then group.sticky conf r else none) with
  | some chosenEndp => some (.ok chosenEndp, s)
  | none =>
    match group.getBalancedEndpoint fuel endpoints with
    | none => none
    | some (.panic, b) => some (.panic, { s with group := { group with balance := b } })
    | some (.err e, b) =>
      some (.err e, { s with group := { group with balance := b }, w := httpError s.w 503 })
    | some (.ok chosenEndp, b) =>
      if group.SessionPersistence then
        match endpoints.get? chosenEndp with
        | none => some (.panic, { s with group := { group with balance := b } })
        | some endpoint =>
          some (.ok chosenEndp,
            { s with group := { group with balance := b },
                     w := conf.setCookie s.w group endpoint })
      else some (.ok chosenEndp, { s with group := { group with balance := b } })

mutual

/-- The reverse proxy of endpoint `i`, `httputil.ReverseProxy.ServeHTTP` with the
`ErrorHandler` installed by `Endpoint.Start`: one round trip, then relay or error handling. -/
def proxyServeHTTP (conf : StatelessSessionPersistence) (up : Upstream) :
    Nat → Nat → Request → World → Option (Exit × World)
  | 0, _, _, _ => none
  | fuel + 1, i, r, s =>
    let outcome := up s.log i
    let s := s.record (.roundTrip i)
    match outcome with
    | .response code => some (.returned, { s with w := relay s.w i code })
    | .aborted code => some (.panicked, { s with w := relay s.w i code })
    | .canceled => ErrorHandler conf up fuel i r true s
    | .failed => ErrorHandler conf up fuel i r false s

/-- The closure `proxy.ErrorHandler` of `Endpoint.Start` for endpoint `i`; `canceled` is
`errors.Is(err, context.Canceled)`. -/
def ErrorHandler (conf : StatelessSessionPersistence) (up : Upstream) :
    Nat → Nat → Request → Bool → World → Option (Exit × World)
  | 0, _, _, _, _ => none
  | fuel + 1, i, r, canceled, s =>
    if canceled then some (.returned, s)
    else
      let retriesSameEndp := getRetryFromContext .RETRY_SAME_ENDP r
      if retriesSameEndp < maxRetry then
        proxyServeHTTP conf up fuel i (r.WithValue .RETRY_SAME_ENDP (retriesSameEndp + 1)) s
      else
        let s := (s.onEndpoint i fun e => { e with Alive := false }).record (.storeDead i)
        let retriesAnotherEndp := getRetryFromContext .RETRY_ANOTHER_ENDP r
        if retriesAnotherEndp < maxRetry then
          Group.handleRequest conf up fuel
            (r.WithValue .RETRY_ANOTHER_ENDP (retriesAnotherEndp + 1)) s
        else
          some (.returned, { s with w := httpError s.w 503 })

/-- The function `Endpoint.ServeHTTP` of `endpoint.go` for the endpoint at position `i`. -/
def Endpoint.ServeHTTP (conf : StatelessSessionPersistence) (up : Upstream) :
    Nat → Nat → Request → World → Option (Exit × World)
  | 0, _, _, _ => none
  | fuel + 1, i, r, s =>
    let s := s.record (.ServeHTTP i)
    let s := s.onEndpoint i fun e => { e with ActiveConnections := uint64Add e.ActiveConnections 1 }
    match proxyServeHTTP conf up fuel i r s with
    | none => none
    | some (.panicked, s) => some (.panicked, s)
    | some (.returned, s) =>
      some (.returned,
        s.onEndpoint i fun e => { e with ActiveConnections := uint64Sub e.ActiveConnections 1 })

/-- The function `Group.handleRequest` of `group.go`: the selection `Group.choose`, then
`chosenEndp.ServeHTTP(w, r)`. -/
def Group.handleRequest (conf : StatelessSessionPersistence) (up : Upstream) :
    Nat → Request → World → Option (Exit × World)
  | 0, _, _ => none
  | fuel + 1, r, s =>
    match Group.choose conf fuel r (s.record .handleRequest) with
    | none => none
    | some (.panic, s) => some (.panicked, s)
    | some (.err _, s) => some (.returned, s)
    | some (.ok chosenEndp, s) => Endpoint.ServeHTTP conf up fuel chosenEndp r s

end

/-! ## endpoint.go: the `proxy_pass` director -/

/-- The value of `toJoinPath` computed by the `proxy.Director` closure of `Endpoint.Start`
from `req.URL.Path` and `group.Path`. -/
def toJoinPath (reqURLPath groupPath : GoString) : GoString :=
  if (reqURLPath ≠ "/".toList || groupPath ≠ "/".toList) && reqURLPath ≠ groupPath then
    Replace reqURLPath groupPath []
  else "/".toList

/-- Go `strings.HasSuffix(s, suffix)`. -/
def HasSuffix (s suf : GoString) : Bool :=
  suf.isSuffixOf s

/-- The function `singleJoiningSlash(a, b)` of `net/http/httputil`. -/
def singleJoiningSlash (a b : GoString) : GoString :=
  let aslash := HasSuffix a "/".toList
  let bslash := HasPrefix b "/".toList
  if aslash && bslash then a ++ b.drop 1
  else if !aslash && !bslash then a ++ "/".toList ++ b
  else a ++ b

/-- What `proxyDirectorDefault(req)`, the director of
`httputil.NewSingleHostReverseProxy(parsedaddress)`, leaves in `req.URL.Path`: the path of the
endpoint address joined with the path of the request handed to the reverse proxy
(`joinURLPath`, for URLs without a separate raw path). -/
def proxyDirectorDefault (addressPath reqURLPath : GoString) : GoString :=
  singleJoiningSlash addressPath reqURLPath

/-- The remainder that the `proxy.Director` closure of `Endpoint.Start` joins onto
`proxyAddress.Path` for a request handed to the reverse proxy with path `reqURLPath`
(`endpoint.go`, lines 129-140): `proxyDirectorDefault(req)` runs first, then `toJoinPath` is
computed from the path it left. -/
def directorRemainder (addressPath groupPath reqURLPath : GoString) : GoString :=
  toJoinPath (proxyDirectorDefault addressPath reqURLPath) groupPath

/-! ## bind.go -/

/-- The function `Group.isPathCompliant` of `group.go`. -/
def Group.isPathCompliant (group : Group) (r : Request) : Bool :=
  group.Path = [] || HasPrefix r.Path group.Path

/-- The loop of `grabGroup`: `i` is the position of the head of the remaining slice, `group`
the loop-carried variable (`none` is `nil`). -/
def grabGroup.loop (hostname : GoString) (r : Request) : List Group → Nat → Option Nat → Option Nat
  | [], _, group => group
  | currentGroup :: rest, i, group =>
    grabGroup.loop hostname r rest (i + 1)
      (if currentGroup.Address = hostname && currentGroup.isPathCompliant r then some i else group)

/-- The function `grabGroup` of `bind.go`. -/
def grabGroup (g : List Group) (r : Request) : Result Nat :=
  let hostname := CutBefore r.Host ':'
  match grabGroup.loop hostname r g 0 none with
  | some group => .ok group
  | none => .err "group not found"

/-- The fields of the `Bind` struct of `bind.go` that request routing reads. -/
structure Bind where
  VirtualHost : Bool
  Groups : List Group
  deriving DecidableEq, Repr

/-- What one handled request leaves behind: the binding with the updated group, the response,
and the record of events. -/
structure Handled where
  bind : Bind
  w : ResponseWriter
  log : List Event
  deriving DecidableEq, Repr

/-- The function `catchUnwind` of `utility.go`, given how the call `fn()` ended. The result
of `catchUnwind` is unnamed: when `fn` returns, `return panicked` yields `false`; when `fn`
panics, the deferred closure recovers and sets the local variable `panicked`, but the `return`
statement is never reached, so the caller receives the zero value of the result, `false`. -/
def catchUnwind (fn : Exit) : Bool :=
  match fn with
  | .returned => false
  | .panicked => false

/-- The call `group.handleRequest(w, r)` on the group at position `k` of the binding: how the
call ends, and the binding, response and record it leaves. -/
def Bind.dispatch (conf : StatelessSessionPersistence) (up : Upstream) (fuel : Nat)
    (bind : Bind) (k : Nat) (group : Group) (w : ResponseWriter) (r : Request) :
    Option (Exit × Handled) :=
  match Group.handleRequest conf up fuel r ⟨group, w, []⟩ with
  | none => none
  | some (exit, s) =>
    some (exit, ⟨{ bind with Groups := bind.Groups.set k s.group }, s.w, s.log⟩)

/-- The closure that `Bind.reverseproxyHandler` passes to `catchUnwind` (`bind.go`, lines
67-86); indexing `bind.Groups[0]` on an empty slice panics. -/
def Bind.route (conf : StatelessSessionPersistence) (up : Upstream) (fuel : Nat)
    (bind : Bind) (w : ResponseWriter) (r : Request) : Option (Exit × Handled) :=
  if bind.VirtualHost then
    match grabGroup bind.Groups r with
    | .ok k =>
      match bind.Groups.get? k with
      | some group => bind.dispatch conf up fuel k group w r
      | none => some (.panicked, ⟨bind, w, []⟩)
    | .err _ => some (.returned, ⟨bind, httpError w 503, []⟩)
    | .panic => some (.panicked, ⟨bind, w, []⟩)
  else
    match bind.Groups with
    | [] => some (.panicked, ⟨bind, w, []⟩)
    | firstGroup :: _ =>
      if !firstGroup.isPathCompliant r then some (.returned, ⟨bind, httpError w 503, []⟩)
      else bind.dispatch conf up fuel 0 firstGroup w r

/-- The function `Bind.reverseproxyHandler` of `bind.go`. -/
def Bind.reverseproxyHandler (conf : StatelessSessionPersistence) (up : Upstream) (fuel : Nat)
    (bind : Bind) (w : ResponseWriter) (r : Request) : Option Handled :=
  match bind.route conf up fuel w r with
  | none => none
  | some (fn, handled) =>
    let panicked := catchUnwind fn
    if panicked then some { handled with w := httpError handled.w 500 } else some handled

/-! ## Sequential runs of the round-robin balancer -/

/-- The endpoints returned by `K` consecutive calls `roundRobin.balanced(endpoints, nil)`,
starting with the atomic index at `endpointIndex`, and the index afterwards. -/
def roundRobin.calls (endpoints : List Endpoint) (fuel : Nat) :
    Nat → Nat → Option (List (Result Nat) × Nat)
  | 0, endpointIndex => some ([], endpointIndex)
  | K + 1, endpointIndex =>
    match roundRobin.balanced endpoints fuel endpointIndex [] 0 with
    | none => none
    | some sel =>
      (roundRobin.calls endpoints fuel K sel.endpointIndex).map
        fun rest => (sel.result :: rest.1, rest.2)

/-! ## Example configurations -/

/-- An endpoint named `name` (its signature stands for the hash of its address), with the given
liveness and no connection in flight. -/
def exampleEndpoint (name : GoString) (alive : Bool) : Endpoint :=
  ⟨"http://".toList ++ name, [], 0, alive, "sig-".toList ++ name⟩

/-- Endpoints `A, B, C`, all alive. -/
def endpointsABC : List Endpoint :=
  [exampleEndpoint ['A'] true, exampleEndpoint ['B'] true, exampleEndpoint ['C'] true]

/-- Endpoints `A, B, C` with `B` marked dead. -/
def endpointsABdeadC : List Endpoint :=
  [exampleEndpoint ['A'] true, exampleEndpoint ['B'] false, exampleEndpoint ['C'] true]

/-- Groups `example.com` with path `/` and `example.com` with path `/api`, in this order. -/
def groupsRootThenApi : List Group :=
  [⟨"example.com".toList, "/".toList, false, [], .roundRobin 0⟩,
   ⟨"example.com".toList, "/api".toList, false, [], .roundRobin 0⟩]

/-- Five endpoints, all alive, under the failover policy. -/
def groupOfFive : Group :=
  ⟨"example.com".toList, "/".toList, false,
    [exampleEndpoint ['A'] true, exampleEndpoint ['B'] true, exampleEndpoint ['C'] true,
     exampleEndpoint ['D'] true, exampleEndpoint ['E'] true], .failover⟩

/-- A request for `example.com/x` without cookies, as it arrives from the server. -/
def requestX : Request := ⟨"example.com".toList, "/x".toList, [], []⟩

/-- A response writer nothing has been written to. -/
def freshWriter : ResponseWriter := ⟨[], none, none⟩

/-- The default session settings: cookie `_gbsps` with attribute `HttpOnly`. -/
def defaultSession : StatelessSessionPersistence := ⟨[], ["HttpOnly".toList]⟩

/-- Endpoints `A` and `B`, both alive, under round robin with the index at `A`. -/
def groupAB : Group :=
  ⟨"example.com".toList, "/".toList, false,
    [exampleEndpoint ['A'] true, exampleEndpoint ['B'] true], .roundRobin 0⟩

/-- The upstream of scenario S4: endpoint `0` refuses every connection, every other endpoint
answers 200. -/
def upstreamS4 : Upstream := fun _ i => if i = 0 then .failed else .response 200

/-- Endpoints `A` and `B`, both alive, with session persistence on and round robin at `A`. -/
def stickyGroupAB : Group :=
  ⟨"example.com".toList, "/".toList, true,
    [exampleEndpoint ['A'] true, exampleEndpoint ['B'] true], .roundRobin 0⟩

/-- Two endpoints configured with the same address `A`, hence the same signature, the first
one marked dead and the second alive; session persistence on, round robin at the second. -/
def stickyGroupAA : Group :=
  ⟨"example.com".toList, "/".toList, true,
    [exampleEndpoint ['A'] false, exampleEndpoint ['A'] true], .roundRobin 1⟩

/-- A request for `example.com/x` carrying the affinity cookie `_gbsps` with value `sig`. -/
def requestWithCookie (sig : GoString) : Request :=
  ⟨"example.com".toList, "/x".toList, [("_gbsps".toList, sig)], []⟩

/-- Endpoints `A` and `B`, both marked dead. -/
def endpointsAllDead : List Endpoint :=
  [exampleEndpoint ['A'] false, exampleEndpoint ['B'] false]

/-- A request for `example.com/x` that has used up its three same-endpoint retries and is on
its first other-endpoint retry, as the error handler hands it to `Group.handleRequest`. -/
def requestAfterRetries : Request :=
  ⟨"example.com".toList, "/x".toList, [],
    [(.RETRY_ANOTHER_ENDP, 1), (.RETRY_SAME_ENDP, 3), (.RETRY_SAME_ENDP, 2),
     (.RETRY_SAME_ENDP, 1)]⟩

/-- A group for the IPv6 host `[::1]` with path `/`. -/
def groupIPv6 : Group :=
  ⟨"[::1]".toList, "/".toList, false, [], .roundRobin 0⟩

/-- A request for path `/x` sent to `[::1]:8080`. -/
def requestIPv6 : Request := ⟨"[::1]:8080".toList, "/x".toList, [], []⟩

/-- The upstream in which endpoint `1` refuses every connection and every other endpoint
answers 200. -/
def upstreamSecondFails : Upstream := fun _ i => if i = 1 then .failed else .response 200

/-! ## The cookie format of the spec -/

/-- The settings "joined with `; `", spelled out element by element. -/
def joinedSettings : List GoString → GoString
  | [] => []
  | [x] => x
  | x :: y :: rest => x ++ "; ".toList ++ joinedSettings (y :: rest)

/-- The affinity cookie in the words of the spec,
`<name>=<signature>[; Path=<group.path>][; <joined cookie_settings>]`: the `Path` part is
present iff the group path is non-empty, the settings part iff the settings list is
non-empty. -/
def affinityCookieFormat (name signature path : GoString) (settings : List GoString) :
    GoString :=
  name ++ "=".toList ++ signature
    ++ (if path = [] then [] else "; Path=".toList ++ path)
    ++ (if settings = [] then [] else "; ".toList ++ joinedSettings settings)

/-! ## Proof-side measures -/

/-- Ladder rank of a request: how many retries its context still allows. -/
def rank (r : Request) : Nat :=
  (maxRetry - getRetryFromContext .RETRY_SAME_ENDP r)
    + (maxRetry - getRetryFromContext .RETRY_ANOTHER_ENDP r)

/-- The state invariant of a started group with `N` endpoints: the slice keeps its length and
a round-robin index stays below it. -/
def World.inv (N : Nat) (s : World) : Prop :=
  s.group.Endpoints.length = N
    ∧ ∀ i, s.group.balance = .roundRobin i → 2 ≤ N → i < N

/-- The `ActiveConnections` counters of all endpoints of the group, in order. -/
def World.counters (s : World) : List Nat :=
  s.group.Endpoints.map (·.ActiveConnections)

/-- Apply `g` to the entry at position `i`. -/
def bumpAt (g : Nat → Nat) : List Nat → Nat → List Nat
  | [], _ => []
  | c :: cs, 0 => g c :: cs
  | c :: cs, i + 1 => c :: bumpAt g cs i

/-! ## Round robin: one call -/

theorem newIndex_eq (N i : Nat) (hN : N < 2 ^ 32) (hi : i < N) :
    (if i < uint32Sub (uint32 N) 1 then uint32Add i 1 else 0) = (i + 1) % N := by
  have h1 : uint32Sub (uint32 N) 1 = N - 1 := by
    unfold uint32Sub uint32
    norm_num at hN ⊢
    omega
  rw [h1]
  by_cases h : i < N - 1
  · rw [if_pos h, Nat.mod_eq_of_lt (by omega)]
    unfold uint32Add
    norm_num at hN ⊢
    omega
  · rw [if_neg h]
    have : i + 1 = N := by omega
    rw [this, Nat.mod_self]

theorem aliveAt_lt {endpoints : List Endpoint} {i : Nat} (h : aliveAt endpoints i = true) :
    i < endpoints.length := by
  unfold aliveAt at h
  cases hg : endpoints.get? i with
  | none => rw [hg] at h; simp at h
  | some e => exact (List.get?_eq_some.mp hg).1

theorem balanced_alive (endpoints : List Endpoint) (fuel i : Nat) (L : List Nat) (p : Nat)
    (hN : endpoints.length < 2 ^ 32) (ha : aliveAt endpoints i = true) :
    roundRobin.balanced endpoints (fuel + 1) i L p
      = some ⟨.ok i, (i + 1) % endpoints.length, p + 1⟩ := by
  have hi := aliveAt_lt ha
  unfold aliveAt at ha
  cases hg : endpoints.get? i with
  | none => rw [hg] at ha; simp at ha
  | some e =>
    rw [hg] at ha
    simp only at ha
    simp only [roundRobin.balanced, hg, ha, CompareAndSwap, if_true, newIndex_eq _ _ hN hi]

theorem balanced_dead (endpoints : List Endpoint) (fuel i : Nat) (L : List Nat) (p : Nat)
    (hN : endpoints.length < 2 ^ 32) (hi : i < endpoints.length)
    (ha : aliveAt endpoints i = false) :
    roundRobin.balanced endpoints (fuel + 1) i L p
      = if L.length = endpoints.length then
          some ⟨.err "all endpoints down", (i + 1) % endpoints.length, p + 1⟩
        else
          roundRobin.balanced endpoints fuel ((i + 1) % endpoints.length)
            (if i ∈ L then L else L ++ [i]) (p + 1) := by
  unfold aliveAt at ha
  cases hg : endpoints.get? i with
  | none =>
    have := List.get?_eq_none.mp hg
    omega
  | some e =>
    rw [hg] at ha
    simp only at ha
    have hany : (L.any fun x => x == i) = decide (i ∈ L) := by
      by_cases hm : i ∈ L
      · simp only [hm, decide_True]
        exact List.any_eq_true.mpr ⟨i, hm, by simp⟩
      · simp only [hm, decide_False]
        rw [Bool.eq_false_iff]
        intro h
        obtain ⟨x, hx, hxi⟩ := List.any_eq_true.mp h
        exact hm ((beq_iff_eq.mp hxi) ▸ hx)
    simp only [roundRobin.balanced, hg, ha, CompareAndSwap, newIndex_eq _ _ hN hi, hany]
    by_cases hl : L.length = endpoints.length <;> by_cases hm : i ∈ L <;> simp [hl, hm]

theorem balanced_skip (endpoints : List Endpoint) (hN : endpoints.length < 2 ^ 32) :
    ∀ (d fuel i : Nat) (L : List Nat) (p : Nat), i < endpoints.length → d + 1 ≤ fuel →
      L.length + d ≤ endpoints.length →
      (∀ m < d, aliveAt endpoints ((i + m) % endpoints.length) = false) →
      aliveAt endpoints ((i + d) % endpoints.length) = true →
      roundRobin.balanced endpoints fuel i L p
        = some ⟨.ok ((i + d) % endpoints.length), (i + d + 1) % endpoints.length, p + d + 1⟩ := by
  intro d
  induction d with
  | zero =>
    intro fuel i L p hi hf _ _ ha
    obtain ⟨f, rfl⟩ : ∃ f, fuel = f + 1 := ⟨fuel - 1, by omega⟩
    rw [Nat.add_zero, Nat.mod_eq_of_lt hi] at ha
    rw [balanced_alive endpoints f i L p hN ha]
    simp only [Nat.add_zero, Nat.mod_eq_of_lt hi]
  | succ d ih =>
    intro fuel i L p hi hf hL hdead ha
    obtain ⟨f, rfl⟩ : ∃ f, fuel = f + 1 := ⟨fuel - 1, by omega⟩
    have h0 : aliveAt endpoints i = false := by
      have := hdead 0 (by omega)
      rwa [Nat.add_zero, Nat.mod_eq_of_lt hi] at this
    rw [balanced_dead endpoints f i L p hN hi h0, if_neg (by omega)]
    have hlen : (if i ∈ L then L else L ++ [i]).length + d ≤ endpoints.length := by
      split
      · omega
      · rw [List.length_append, List.length_singleton]; omega
    have hstep : ∀ m, ((i + 1) % endpoints.length + m) % endpoints.length
        = (i + (m + 1)) % endpoints.length := by
      intro m
      rw [Nat.mod_add_mod]
      congr 1
      omega
    rw [ih f ((i + 1) % endpoints.length) _ (p + 1) (Nat.mod_lt _ (by omega)) (by omega) hlen
      (fun m hm => by rw [hstep]; exact hdead (m + 1) (by omega))
      (by rw [hstep]; exact ha)]
    have e1 : ((i + 1) % endpoints.length + d + 1) % endpoints.length
        = (i + (d + 1) + 1) % endpoints.length := by
      rw [Nat.add_assoc, hstep (d + 1)]
      congr 1
    have e2 : p + 1 + d + 1 = p + (d + 1) + 1 := by omega
    rw [hstep d, e1, e2]

theorem balanced_allDead (endpoints : List Endpoint) (hN : endpoints.length < 2 ^ 32)
    (hpos : 0 < endpoints.length)
    (hdead : ∀ j < endpoints.length, aliveAt endpoints j = false) (i0 : Nat) :
    ∀ (n k fuel p : Nat), k + n = endpoints.length → n + 1 ≤ fuel →
      roundRobin.balanced endpoints fuel ((i0 + k) % endpoints.length)
          ((List.range k).map fun m => (i0 + m) % endpoints.length) p
        = some ⟨.err "all endpoints down", (i0 + endpoints.length + 1) % endpoints.length,
            p + n + 1⟩ := by
  intro n
  induction n with
  | zero =>
    intro k fuel p hk hf
    obtain ⟨f, rfl⟩ : ∃ f, fuel = f + 1 := ⟨fuel - 1, by omega⟩
    have hk' : k = endpoints.length := by omega
    rw [balanced_dead endpoints f _ _ p hN (Nat.mod_lt _ hpos) (hdead _ (Nat.mod_lt _ hpos)),
      if_pos (by rw [List.length_map, List.length_range]; exact hk'), Nat.mod_add_mod, hk']
  | succ n ih =>
    intro k fuel p hk hf
    obtain ⟨f, rfl⟩ : ∃ f, fuel = f + 1 := ⟨fuel - 1, by omega⟩
    have hnot : (i0 + k) % endpoints.length
        ∉ (List.range k).map fun m => (i0 + m) % endpoints.length := by
      intro hmem
      obtain ⟨m, hm, hmk⟩ := List.mem_map.mp hmem
      have hm' : m < k := List.mem_range.mp hm
      have h1 : m ≡ k [MOD endpoints.length] := Nat.ModEq.add_left_cancel' i0 hmk
      have := Nat.ModEq.eq_of_lt_of_lt h1 (by omega) (by omega)
      omega
    rw [balanced_dead endpoints f _ _ p hN (Nat.mod_lt _ hpos) (hdead _ (Nat.mod_lt _ hpos)),
      if_neg (by rw [List.length_map, List.length_range]; omega), if_neg hnot]
    have hL : ((List.range k).map fun m => (i0 + m) % endpoints.length)
          ++ [(i0 + k) % endpoints.length]
        = (List.range (k + 1)).map fun m => (i0 + m) % endpoints.length := by
      rw [List.range_succ, List.map_append, List.map_singleton]
    rw [hL, Nat.mod_add_mod]
    have := ih (k + 1) f (p + 1) (by omega) (by omega)
    rw [show i0 + k + 1 = i0 + (k + 1) by omega, this]
    have e2 : p + 1 + n + 1 = p + (n + 1) + 1 := by omega
    rw [e2]

theorem exists_first_alive (endpoints : List Endpoint) (i : Nat) (hi : i < endpoints.length)
    (h : ∃ j, aliveAt endpoints j = true) :
    ∃ d, d < endpoints.length
      ∧ (∀ m < d, aliveAt endpoints ((i + m) % endpoints.length) = false)
      ∧ aliveAt endpoints ((i + d) % endpoints.length) = true := by
  obtain ⟨j, hj⟩ := h
  have hjl := aliveAt_lt hj
  have hex : ∃ m, aliveAt endpoints ((i + m) % endpoints.length) = true := by
    refine ⟨(j + endpoints.length - i) % endpoints.length, ?_⟩
    rw [Nat.add_mod_mod, show i + (j + endpoints.length - i) = j + endpoints.length by omega,
      Nat.add_mod_right, Nat.mod_eq_of_lt hjl]
    exact hj
  classical
  refine ⟨Nat.find hex, ?_, ?_, Nat.find_spec hex⟩
  · by_contra hge
    have hlt : Nat.find hex - endpoints.length < Nat.find hex := by omega
    apply Nat.find_min hex hlt
    have := Nat.find_spec hex
    rw [show i + Nat.find hex = i + (Nat.find hex - endpoints.length) + endpoints.length by omega,
      Nat.add_mod_right] at this
    exact this
  · intro m hm
    have := Nat.find_min hex hm
    simpa using this

theorem balanced_total (endpoints : List Endpoint) (hN : endpoints.length < 2 ^ 32)
    (i : Nat) (hi : i < endpoints.length) (fuel : Nat) (hf : endpoints.length + 1 ≤ fuel) :
    ∃ sel, roundRobin.balanced endpoints fuel i [] 0 = some sel
      ∧ sel.endpointIndex < endpoints.length
      ∧ ((∃ j, sel.result = .ok j ∧ aliveAt endpoints j = true)
          ∨ (sel.result = .err "all endpoints down"
              ∧ ∀ j < endpoints.length, aliveAt endpoints j = false)) := by
  have hpos : 0 < endpoints.length := by omega
  by_cases h : ∃ j, aliveAt endpoints j = true
  · obtain ⟨d, hd, hdead, ha⟩ := exists_first_alive endpoints i hi h
    refine ⟨_, balanced_skip endpoints hN d fuel i [] 0 hi (by omega) (by simp; omega) hdead ha,
      Nat.mod_lt _ hpos, Or.inl ⟨_, rfl, ha⟩⟩
  · have hdead : ∀ j < endpoints.length, aliveAt endpoints j = false := by
      intro j _
      by_contra hj
      exact h ⟨j, by simpa using hj⟩
    have := balanced_allDead endpoints hN hpos hdead i endpoints.length 0 fuel 0 (by omega) hf
    rw [Nat.add_zero, Nat.mod_eq_of_lt hi] at this
    exact ⟨_, this, Nat.mod_lt _ hpos, Or.inr ⟨rfl, hdead⟩⟩

/-! ## Failover -/

theorem aliveAt_cons_zero (e : Endpoint) (es : List Endpoint) :
    aliveAt (e :: es) 0 = e.Alive := rfl

theorem aliveAt_cons_succ (e : Endpoint) (es : List Endpoint) (k : Nat) :
    aliveAt (e :: es) (k + 1) = aliveAt es k := rfl

theorem scan_first_alive :
    ∀ (es : List Endpoint) (pos p k : Nat), aliveAt es k = true →
      (∀ m < k, aliveAt es m = false) → (failover.scan es pos p).1 = .ok (pos + k) := by
  intro es
  induction es with
  | nil => intro pos p k h _; simp [aliveAt] at h
  | cons e es ih =>
    intro pos p k h hd
    cases k with
    | zero =>
      rw [aliveAt_cons_zero] at h
      simp [failover.scan, h]
    | succ k =>
      have h0 : e.Alive = false := hd 0 (by omega)
      rw [aliveAt_cons_succ] at h
      simp only [failover.scan, h0, Bool.false_eq_true, if_false]
      rw [ih (pos + 1) (p + 1) k h (fun m hm => hd (m + 1) (by omega))]
      congr 1
      omega

theorem scan_none_alive :
    ∀ (es : List Endpoint) (pos p : Nat), (∀ e ∈ es, e.Alive = false) →
      (failover.scan es pos p).1 = .err "all endpoints are down" := by
  intro es
  induction es with
  | nil => intro pos p _; rfl
  | cons e es ih =>
    intro pos p h
    have h0 : e.Alive = false := h e (List.mem_cons_self _ _)
    simp only [failover.scan, h0, Bool.false_eq_true, if_false]
    exact ih _ _ (fun x hx => h x (List.mem_cons_of_mem _ hx))

theorem first_alive_of_mem (es : List Endpoint) (h : ∃ e ∈ es, e.Alive = true) :
    ∃ k, aliveAt es k = true ∧ ∀ m < k, aliveAt es m = false := by
  have hex : ∃ k, aliveAt es k = true := by
    obtain ⟨e, he, ha⟩ := h
    obtain ⟨k, hk⟩ := List.get?_of_mem he
    exact ⟨k, by unfold aliveAt; rw [hk]; exact ha⟩
  classical
  exact ⟨Nat.find hex, Nat.find_spec hex, fun m hm => by simpa using Nat.find_min hex hm⟩

theorem aliveAt_mem {es : List Endpoint} {k : Nat} (h : aliveAt es k = true) :
    ∃ e, es.get? k = some e ∧ e ∈ es ∧ e.Alive = true := by
  unfold aliveAt at h
  cases hg : es.get? k with
  | none => rw [hg] at h; simp at h
  | some e =>
    rw [hg] at h
    exact ⟨e, rfl, List.get?_mem hg, h⟩

/-! ## Sequential runs -/

theorem calls_all_alive (endpoints : List Endpoint) (hN : endpoints.length < 2 ^ 32)
    (hall : ∀ j < endpoints.length, aliveAt endpoints j = true) (fuel : Nat) :
    ∀ (K i : Nat), i < endpoints.length →
      roundRobin.calls endpoints (fuel + 1) K i
        = some ((List.range K).map (fun j => Result.ok ((i + j) % endpoints.length)),
            (i + K) % endpoints.length) := by
  intro K
  induction K with
  | zero =>
    intro i hi
    simp [roundRobin.calls, Nat.mod_eq_of_lt hi]
  | succ K ih =>
    intro i hi
    have hpos : 0 < endpoints.length := by omega
    simp only [roundRobin.calls, balanced_alive endpoints fuel i [] 0 hN (hall i hi),
      ih ((i + 1) % endpoints.length) (Nat.mod_lt _ hpos), Option.map_some']
    have hstep : ∀ m, ((i + 1) % endpoints.length + m) % endpoints.length
        = (i + (m + 1)) % endpoints.length := by
      intro m
      rw [Nat.mod_add_mod]
      congr 1
      omega
    simp only [hstep]
    rw [List.range_succ_eq_map, List.map_cons, List.map_map]
    simp only [Nat.add_zero, Nat.mod_eq_of_lt hi]
    rfl

theorem count_cyclic (N i e K : Nat) (hi : i < N) (he : e < N) :
    ((List.range K).map (fun j => Result.ok ((i + j) % N))).count (Result.ok e)
      = K / N + if (e + N - i) % N < K % N then 1 else 0 := by
  have hpos : 0 < N := by omega
  rw [← Nat.count_modEq_card K hpos (e + N - i), Nat.count, List.count, List.countP_map]
  apply List.countP_congr
  intro j _
  simp only [Function.comp, beq_iff_eq, Result.ok.injEq, decide_eq_true_eq]
  constructor
  · intro h
    apply Nat.ModEq.add_left_cancel' i
    show (i + j) % N = (i + (e + N - i)) % N
    rw [h, show i + (e + N - i) = e + N by omega, Nat.add_mod_right, Nat.mod_eq_of_lt he]
  · intro h
    have h2 : (i + j) % N = (i + (e + N - i)) % N := Nat.ModEq.add_left i h
    rw [h2, show i + (e + N - i) = e + N by omega, Nat.add_mod_right, Nat.mod_eq_of_lt he]

theorem ceil_div_bound (N K : Nat) (hpos : 0 < N) :
    (K / N + if 0 < K % N then 1 else 0) = (K + N - 1) / N := by
  have hdm := Nat.div_add_mod K N
  have hlt := Nat.mod_lt K hpos
  have hmul : (K / N + 1) * N = N * (K / N) + N := by
    rw [Nat.add_mul, Nat.one_mul, Nat.mul_comm]
  have hmul2 : (K / N + 1 + 1) * N = N * (K / N) + N + N := by
    rw [Nat.add_mul, Nat.one_mul, hmul]
  symm
  by_cases h : 0 < K % N
  · rw [if_pos h]
    apply Nat.div_eq_of_lt_le
    · rw [hmul]; omega
    · rw [hmul2]; omega
  · rw [if_neg h, Nat.add_zero]
    apply Nat.div_eq_of_lt_le
    · rw [Nat.mul_comm]; omega
    · rw [hmul]; omega

/-! ## Virtual-host routing -/

/-- The test of the `grabGroup` loop body. -/
theorem grabGroup_loop_spec (hostname : GoString) (r : Request) :
    ∀ (gs : List Group) (i : Nat) (acc : Option Nat) (k : Nat),
      grabGroup.loop hostname r gs i acc = some k ↔
        ((∃ grp, i ≤ k ∧ gs.get? (k - i) = some grp
            ∧ (grp.Address = hostname ∧ grp.isPathCompliant r = true)
            ∧ ∀ m grp2, k - i < m → gs.get? m = some grp2 →
                ¬ (grp2.Address = hostname ∧ grp2.isPathCompliant r = true))
          ∨ (acc = some k
            ∧ ∀ grp ∈ gs, ¬ (grp.Address = hostname ∧ grp.isPathCompliant r = true))) := by
  intro gs
  induction gs with
  | nil =>
    intro i acc k
    simp [grabGroup.loop]
  | cons g gs ih =>
    intro i acc k
    simp only [grabGroup.loop]
    rw [ih]
    by_cases hg : g.Address = hostname ∧ g.isPathCompliant r = true
    · have hcond : (decide (g.Address = hostname) && g.isPathCompliant r) = true := by
        simp [hg.1, hg.2]
      rw [hcond, if_pos rfl]
      constructor
      · rintro (⟨grp, hik, hget, hm, hlast⟩ | ⟨hacc, hnone⟩)
        · refine Or.inl ⟨grp, by omega, ?_, hm, ?_⟩
          · rw [show k - i = (k - (i + 1)) + 1 by omega]
            exact hget
          · intro m grp2 hlt hget2
            obtain ⟨m', rfl⟩ : ∃ m', m = m' + 1 := ⟨m - 1, by omega⟩
            exact hlast m' grp2 (by omega) hget2
        · cases hacc
          refine Or.inl ⟨g, le_refl _, by simp, hg, ?_⟩
          intro m grp2 hlt hget2
          obtain ⟨m', rfl⟩ : ∃ m', m = m' + 1 := ⟨m - 1, by omega⟩
          exact hnone grp2 (List.get?_mem hget2)
      · rintro (⟨grp, hik, hget, hm, hlast⟩ | ⟨_, hnone⟩)
        · rcases Nat.eq_or_lt_of_le hik with heq | hlt
          · subst heq
            right
            refine ⟨rfl, ?_⟩
            intro grp2 hmem
            obtain ⟨m, hm2⟩ := List.get?_of_mem hmem
            exact hlast (m + 1) grp2 (by omega) hm2
          · left
            refine ⟨grp, by omega, ?_, hm, ?_⟩
            · rw [show k - i = (k - (i + 1)) + 1 by omega] at hget
              exact hget
            · intro m grp2 hlt2 hget2
              exact hlast (m + 1) grp2 (by omega) hget2
        · exact absurd hg (hnone g (List.mem_cons_self _ _))
    · have hcond : (decide (g.Address = hostname) && g.isPathCompliant r) = false := by
        rw [Bool.eq_false_iff]
        intro h
        simp only [Bool.and_eq_true, decide_eq_true_eq] at h
        exact hg h
      rw [hcond, if_neg (by simp)]
      constructor
      · rintro (⟨grp, hik, hget, hm, hlast⟩ | ⟨hacc, hnone⟩)
        · refine Or.inl ⟨grp, by omega, ?_, hm, ?_⟩
          · rw [show k - i = (k - (i + 1)) + 1 by omega]
            exact hget
          · intro m grp2 hlt hget2
            obtain ⟨m', rfl⟩ : ∃ m', m = m' + 1 := ⟨m - 1, by omega⟩
            exact hlast m' grp2 (by omega) hget2
        · refine Or.inr ⟨hacc, ?_⟩
          intro grp hmem
          rcases List.mem_cons.mp hmem with rfl | h
          · exact hg
          · exact hnone grp h
      · rintro (⟨grp, hik, hget, hm, hlast⟩ | ⟨hacc, hnone⟩)
        · rcases Nat.eq_or_lt_of_le hik with heq | hlt
          · subst heq
            simp only [Nat.sub_self, List.get?_cons_zero, Option.some.injEq] at hget
            subst hget
            exact absurd hm hg
          · left
            refine ⟨grp, by omega, ?_, hm, ?_⟩
            · rw [show k - i = (k - (i + 1)) + 1 by omega] at hget
              exact hget
            · intro m grp2 hlt2 hget2
              exact hlast (m + 1) grp2 (by omega) hget2
        · exact Or.inr ⟨hacc, fun grp h => hnone grp (List.mem_cons_of_mem _ h)⟩

theorem cutBefore_no_sep (s : GoString) (sep : Char) (h : sep ∉ s) : CutBefore s sep = s := by
  unfold CutBefore
  rw [List.takeWhile_eq_self_iff]
  intro x hx
  simp only [ne_eq, decide_not, Bool.not_eq_true', decide_eq_false_iff_not]
  intro hxs
  exact h (hxs ▸ hx)

theorem cutBefore_append (name port : GoString) (sep : Char) (h : sep ∉ name) :
    CutBefore (name ++ sep :: port) sep = name := by
  unfold CutBefore
  induction name with
  | nil => simp [List.takeWhile]
  | cons c cs ih =>
    have hc : c ≠ sep := fun hcs => h (hcs ▸ List.mem_cons_self _ _)
    have hcs : sep ∉ cs := fun hm => h (List.mem_cons_of_mem _ hm)
    have ih' := ih hcs
    simp only [List.cons_append, List.takeWhile, ne_eq, hc, not_false_eq_true, decide_True,
      List.cons.injEq, true_and]
    exact ih'

/-! ## The `proxy_pass` remainder -/

theorem index_of_prefix (s old : GoString) (h : HasPrefix s old = true) : Index s old = some 0 := by
  cases s with
  | nil =>
    unfold HasPrefix at h
    cases old with
    | nil => simp [Index]
    | cons c t => simp [List.isPrefixOf] at h
  | cons c s => simp [Index, h]

theorem replace_prefix (s old : GoString) (h : HasPrefix s old = true) :
    Replace s old [] = s.drop old.length := by
  unfold Replace
  by_cases ho : old = []
  · simp [ho]
  · rw [if_neg ho, index_of_prefix s old h]
    simp

theorem hasPrefix_iff (s pre : GoString) : HasPrefix s pre = true ↔ ∃ t, s = pre ++ t := by
  unfold HasPrefix
  rw [List.isPrefixOf_iff_prefix]
  constructor
  · rintro ⟨t, ht⟩
    exact ⟨t, ht.symm⟩
  · rintro ⟨t, ht⟩
    exact ⟨t, ht.symm⟩

theorem toJoinPath_of_prefix (p gp : GoString) (hpre : HasPrefix p gp = true) :
    (p = gp → toJoinPath p gp = "/".toList)
      ∧ (p ≠ gp → toJoinPath p gp = p.drop gp.length ∧ gp ++ toJoinPath p gp = p)
      ∧ Replace p gp [] = p.drop gp.length := by
  have hrep := replace_prefix p gp hpre
  refine ⟨?_, ?_, hrep⟩
  · intro heq
    unfold toJoinPath
    simp [heq]
  · intro hne
    have hj : toJoinPath p gp = p.drop gp.length := by
      unfold toJoinPath
      have hcond : ((p ≠ "/".toList || gp ≠ "/".toList) && p ≠ gp) = true := by
        simp only [ne_eq, Bool.and_eq_true, Bool.or_eq_true, decide_eq_true_eq]
        refine ⟨?_, hne⟩
        by_contra hboth
        push_neg at hboth
        exact hne (hboth.1.trans hboth.2.symm)
      rw [if_pos hcond, hrep]
    refine ⟨hj, ?_⟩
    obtain ⟨t, ht⟩ := (hasPrefix_iff _ _).mp hpre
    rw [hj, ht, List.drop_left]

theorem hasPrefix_nil (p : GoString) : HasPrefix p [] = true := by
  simp [HasPrefix, List.isPrefixOf]

theorem proxyDirectorDefault_id (addressPath reqURLPath : GoString)
    (ha : addressPath = [] ∨ addressPath = "/".toList)
    (hr : HasPrefix reqURLPath "/".toList = true) :
    proxyDirectorDefault addressPath reqURLPath = reqURLPath := by
  obtain ⟨t, rfl⟩ := (hasPrefix_iff _ _).mp hr
  rcases ha with rfl | rfl
  · simp [proxyDirectorDefault, singleJoiningSlash, HasSuffix, HasPrefix, List.isSuffixOf,
      List.isPrefixOf]
  · simp [proxyDirectorDefault, singleJoiningSlash, HasSuffix, HasPrefix, List.isSuffixOf,
      List.isPrefixOf]

/-! ## The request path: unfolding -/

theorem proxyServeHTTP_succ (conf : StatelessSessionPersistence) (up : Upstream)
    (fuel i : Nat) (r : Request) (s : World) :
    proxyServeHTTP conf up (fuel + 1) i r s
      = match up s.log i with
        | .response code =>
          some (.returned, { s.record (.roundTrip i) with w := relay s.w i code })
        | .aborted code =>
          some (.panicked, { s.record (.roundTrip i) with w := relay s.w i code })
        | .canceled => ErrorHandler conf up fuel i r true (s.record (.roundTrip i))
        | .failed => ErrorHandler conf up fuel i r false (s.record (.roundTrip i)) := by
  rw [proxyServeHTTP]
  rfl

theorem ErrorHandler_succ (conf : StatelessSessionPersistence) (up : Upstream)
    (fuel i : Nat) (r : Request) (s : World) :
    ErrorHandler conf up (fuel + 1) i r false s
      = if getRetryFromContext .RETRY_SAME_ENDP r < maxRetry then
          proxyServeHTTP conf up fuel i
            (r.WithValue .RETRY_SAME_ENDP (getRetryFromContext .RETRY_SAME_ENDP r + 1)) s
        else if getRetryFromContext .RETRY_ANOTHER_ENDP r < maxRetry then
          Group.handleRequest conf up fuel
            (r.WithValue .RETRY_ANOTHER_ENDP (getRetryFromContext .RETRY_ANOTHER_ENDP r + 1))
            ((s.onEndpoint i fun e => { e with Alive := false }).record (.storeDead i))
        else
          some (.returned,
            { (s.onEndpoint i fun e => { e with Alive := false }).record (.storeDead i) with
              w := httpError s.w 503 }) := by
  rw [ErrorHandler]
  rfl

theorem ErrorHandler_canceled (conf : StatelessSessionPersistence) (up : Upstream)
    (fuel i : Nat) (r : Request) (s : World) :
    ErrorHandler conf up (fuel + 1) i r true s = some (.returned, s) := by
  rw [ErrorHandler]
  rfl

theorem ServeHTTP_succ (conf : StatelessSessionPersistence) (up : Upstream)
    (fuel i : Nat) (r : Request) (s : World) :
    Endpoint.ServeHTTP conf up (fuel + 1) i r s
      = match proxyServeHTTP conf up fuel i r
            ((s.record (.ServeHTTP i)).onEndpoint i fun e =>
              { e with ActiveConnections := uint64Add e.ActiveConnections 1 }) with
        | none => none
        | some (.panicked, s) => some (.panicked, s)
        | some (.returned, s) =>
          some (.returned,
            s.onEndpoint i fun e =>
              { e with ActiveConnections := uint64Sub e.ActiveConnections 1 }) := by
  rw [Endpoint.ServeHTTP]

theorem handleRequest_succ (conf : StatelessSessionPersistence) (up : Upstream)
    (fuel : Nat) (r : Request) (s : World) :
    Group.handleRequest conf up (fuel + 1) r s
      = match Group.choose conf fuel r (s.record .handleRequest) with
        | none => none
        | some (.panic, s) => some (.panicked, s)
        | some (.err _, s) => some (.returned, s)
        | some (.ok chosenEndp, s) => Endpoint.ServeHTTP conf up fuel chosenEndp r s := by
  rw [Group.handleRequest]

/-! ## The request path: invariants -/

theorem updateAt_length (f : Endpoint → Endpoint) :
    ∀ (es : List Endpoint) (i : Nat), (updateAt f es i).length = es.length := by
  intro es
  induction es with
  | nil => intro i; rfl
  | cons e es ih =>
    intro i
    cases i with
    | zero => rfl
    | succ i => simp [updateAt, ih]

theorem inv_onEndpoint {N : Nat} {s : World} (h : s.inv N) (i : Nat) (f : Endpoint → Endpoint) :
    (s.onEndpoint i f).inv N := by
  obtain ⟨h1, h2⟩ := h
  exact ⟨by simp [World.onEndpoint, updateAt_length, h1], h2⟩

theorem inv_record {N : Nat} {s : World} (h : s.inv N) (e : Event) : (s.record e).inv N := h

theorem roundTrips_append (log : List Event) (e : Event) :
    roundTrips (log ++ [e]) = roundTrips log + roundTrips [e] := by
  simp [roundTrips, List.countP_append]

theorem roundTrips_roundTrip (log : List Event) (i : Nat) :
    roundTrips (log ++ [.roundTrip i]) = roundTrips log + 1 := by
  rw [roundTrips_append]
  rfl

theorem roundTrips_storeDead (log : List Event) (i : Nat) :
    roundTrips (log ++ [.storeDead i]) = roundTrips log := by
  rw [roundTrips_append]
  rfl

theorem roundTrips_ServeHTTP (log : List Event) (i : Nat) :
    roundTrips (log ++ [.ServeHTTP i]) = roundTrips log := by
  rw [roundTrips_append]
  rfl

theorem roundTrips_handleRequest (log : List Event) :
    roundTrips (log ++ [.handleRequest]) = roundTrips log := by
  rw [roundTrips_append]
  rfl

theorem dead_of_aliveAt {endpoints : List Endpoint}
    (h : ∀ j < endpoints.length, aliveAt endpoints j = false) :
    ∀ e ∈ endpoints, e.Alive = false := by
  intro e he
  obtain ⟨k, hk⟩ := List.get?_of_mem he
  have := h k (List.get?_eq_some.mp hk).1
  unfold aliveAt at this
  rw [hk] at this
  exact this

theorem getBalancedEndpoint_spec (group : Group) (endpoints : List Endpoint)
    (fuel : Nat) (hN : endpoints.length < 2 ^ 32)
    (hidx : ∀ i, group.balance = .roundRobin i → 2 ≤ endpoints.length → i < endpoints.length)
    (hf : endpoints.length + 1 ≤ fuel) :
    ∃ res b, group.getBalancedEndpoint fuel endpoints = some (res, b)
      ∧ (∀ i, b = .roundRobin i → 2 ≤ endpoints.length → i < endpoints.length)
      ∧ ((∃ msg, res = .err msg ∧ ∀ e ∈ endpoints, e.Alive = false)
        ∨ ∃ j e, res = .ok j ∧ endpoints.get? j = some e ∧ e ∈ endpoints ∧ e.Alive = true) := by
  match hE : endpoints with
  | [] => exact ⟨_, _, rfl, by simp, Or.inl ⟨_, rfl, by simp⟩⟩
  | [e] =>
    by_cases ha : e.Alive = true
    · refine ⟨.ok 0, group.balance, by simp [Group.getBalancedEndpoint, ha],
        by simp, Or.inr ?_⟩
      exact ⟨0, e, rfl, rfl, List.mem_singleton_self e, ha⟩
    · exact ⟨.err "the only endpoint available is unreachable", group.balance,
        by simp [Group.getBalancedEndpoint, ha], by simp, Or.inl ⟨_, rfl, by simpa using ha⟩⟩
  | e1 :: e2 :: rest =>
    subst hE
    have hlen : 2 ≤ (e1 :: e2 :: rest).length := by simp
    simp only [Group.getBalancedEndpoint]
    cases hb : group.balance with
    | roundRobin i =>
      obtain ⟨sel, hsel, hlt, hres⟩ :=
        balanced_total (e1 :: e2 :: rest) hN i (hidx i hb hlen) fuel hf
      refine ⟨sel.result, .roundRobin sel.endpointIndex, by simp [balance.balanced, hsel],
        ?_, ?_⟩
      · intro i' hi' _
        cases hi'
        exact hlt
      · rcases hres with ⟨j, hj, ha⟩ | ⟨herr, hdead⟩
        · obtain ⟨e, hg, hm, hal⟩ := aliveAt_mem ha
          exact Or.inr ⟨j, e, hj, hg, hm, hal⟩
        · exact Or.inl ⟨_, herr, dead_of_aliveAt hdead⟩
    | failover =>
      refine ⟨failover.balanced (e1 :: e2 :: rest), .failover, by simp [balance.balanced],
        (by intro i hi; cases hi), ?_⟩
      by_cases h : ∃ e ∈ e1 :: e2 :: rest, e.Alive = true
      · obtain ⟨k, hk, hd⟩ := first_alive_of_mem _ h
        obtain ⟨e, hg, hm, hal⟩ := aliveAt_mem hk
        refine Or.inr ⟨k, e, ?_, hg, hm, hal⟩
        have := scan_first_alive _ 0 0 k hk hd
        rwa [Nat.zero_add] at this
      · have hall : ∀ e ∈ e1 :: e2 :: rest, e.Alive = false := by
          intro e he
          by_contra hne
          exact h ⟨e, he, by simpa using hne⟩
        exact Or.inl ⟨_, scan_none_alive _ 0 0 hall, hall⟩

theorem sticky_alive {group : Group} {conf : StatelessSessionPersistence} {r : Request}
    {k : Nat} (h : group.sticky conf r = some k) : aliveAt group.Endpoints k = true := by
  unfold Group.sticky at h
  split at h
  · rename_i j _
    by_cases ha : aliveAt group.Endpoints j = true
    · rw [if_pos ha] at h
      cases h
      exact ha
    · rw [if_neg ha] at h
      cases h
  · cases h

theorem choose_spec (conf : StatelessSessionPersistence) (fuel : Nat) (r : Request) (s : World)
    (N : Nat) (hN : N < 2 ^ 32) (hinv : s.inv N) (hf : N + 1 ≤ fuel) :
    ∃ res s', Group.choose conf fuel r s = some (res, s')
      ∧ s'.inv N ∧ s'.log = s.log ∧ s'.group.Endpoints = s.group.Endpoints
      ∧ ((∃ k, res = .ok k ∧ aliveAt s.group.Endpoints k = true
            ∧ s'.w.status = s.w.status ∧ s'.w.origin = s.w.origin)
        ∨ (∃ e, res = .err e ∧ s'.w = httpError s.w 503
            ∧ ∀ x ∈ s.group.Endpoints, x.Alive = false)) := by
  obtain ⟨hlen, hidx⟩ := hinv
  obtain ⟨res, b, hg, hb, hres⟩ := getBalancedEndpoint_spec s.group s.group.Endpoints fuel
    (by rw [hlen]; exact hN) (by rw [hlen]; exact hidx) (by rw [hlen]; exact hf)
  rw [hlen] at hb
  unfold Group.choose
  simp only []
  cases hst : (if s.group.SessionPersistence then s.group.sticky conf r else none) with
  | some k =>
    have hk : aliveAt s.group.Endpoints k = true := by
      by_cases hsp : s.group.SessionPersistence = true
      · rw [if_pos hsp] at hst
        exact sticky_alive hst
      · rw [if_neg hsp] at hst
        cases hst
    exact ⟨.ok k, s, rfl, ⟨hlen, hidx⟩, rfl, rfl, Or.inl ⟨k, rfl, hk, rfl, rfl⟩⟩
  | none =>
    simp only []
    rw [hg]
    rcases hres with ⟨msg, rfl, hdead⟩ | ⟨j, e, rfl, hget, _, hal⟩
    · exact ⟨_, _, rfl, ⟨hlen, hb⟩, rfl, rfl, Or.inr ⟨msg, rfl, rfl, hdead⟩⟩
    · have hj : aliveAt s.group.Endpoints j = true := by
        unfold aliveAt
        rw [hget]
        exact hal
      simp only []
      split
      · rw [hget]
        exact ⟨_, _, rfl, ⟨hlen, hb⟩, rfl, rfl, Or.inl ⟨j, rfl, hj, rfl, rfl⟩⟩
      · exact ⟨_, _, rfl, ⟨hlen, hb⟩, rfl, rfl, Or.inl ⟨j, rfl, hj, rfl, rfl⟩⟩

theorem getRetry_withValue_same (r : Request) (key : contextKey) (v : Nat) :
    getRetryFromContext key (r.WithValue key v) = v := by
  simp [getRetryFromContext, Request.WithValue, List.lookup]

theorem getRetry_withValue_other (r : Request) (key key2 : contextKey) (v : Nat)
    (h : key ≠ key2) :
    getRetryFromContext key (r.WithValue key2 v) = getRetryFromContext key r := by
  have : (key == key2) = false := by simpa using h
  simp [getRetryFromContext, Request.WithValue, List.lookup, this]

/-! ## The retry ladder when every round trip fails -/

theorem ErrorHandler_allFail (conf : StatelessSessionPersistence) (up : Upstream)
    (hup : ∀ log i, up log i = .failed) (N : Nat) (hN : N < 2 ^ 32) :
    ∀ (ρ fuel i : Nat) (r : Request) (s : World), rank r ≤ ρ → 4 * ρ + N + 2 ≤ fuel →
      s.inv N → s.w.status = none →
      ∃ s', ErrorHandler conf up fuel i r false s = some (.returned, s')
        ∧ s'.inv N ∧ roundTrips s'.log ≤ roundTrips s.log + ρ ∧ s'.w.status = some 503 := by
  intro ρ
  induction ρ with
  | zero =>
    intro fuel i r s hr hf hinv hw
    obtain ⟨f, rfl⟩ : ∃ f, fuel = f + 1 := ⟨fuel - 1, by omega⟩
    unfold rank maxRetry at hr
    rw [ErrorHandler_succ, if_neg (by unfold maxRetry; omega),
      if_neg (by unfold maxRetry; omega)]
    refine ⟨_, rfl, inv_record (inv_onEndpoint hinv i _) (.storeDead i), ?_, ?_⟩
    · simp [World.record, World.onEndpoint, roundTrips_storeDead]
    · simp [httpError, hw]
  | succ ρ ih =>
    intro fuel i r s hr hf hinv hw
    obtain ⟨f, rfl⟩ : ∃ f, fuel = f + 4 := ⟨fuel - 4, by omega⟩
    unfold rank maxRetry at hr
    rw [ErrorHandler_succ]
    by_cases ha : getRetryFromContext .RETRY_SAME_ENDP r < maxRetry
    · rw [if_pos ha, proxyServeHTTP_succ, hup]
      simp only []
      unfold maxRetry at ha
      obtain ⟨s', hs', hinv', hrt, hw'⟩ := ih (f + 2) i
        (r.WithValue .RETRY_SAME_ENDP (getRetryFromContext .RETRY_SAME_ENDP r + 1))
        (s.record (.roundTrip i))
        (by
          unfold rank maxRetry
          rw [getRetry_withValue_same, getRetry_withValue_other _ _ _ _ (by decide)]
          omega)
        (by omega) (inv_record hinv _) hw
      refine ⟨s', hs', hinv', ?_, hw'⟩
      simp only [World.record, roundTrips_roundTrip] at hrt
      omega
    · rw [if_neg ha]
      unfold maxRetry at ha
      by_cases hb : getRetryFromContext .RETRY_ANOTHER_ENDP r < maxRetry
      · rw [if_pos hb, handleRequest_succ]
        unfold maxRetry at hb
        obtain ⟨res, s2, hch, hinv2, hlog2, _, hres⟩ := choose_spec conf (f + 2)
          (r.WithValue .RETRY_ANOTHER_ENDP (getRetryFromContext .RETRY_ANOTHER_ENDP r + 1))
          (((s.onEndpoint i fun e => { e with Alive := false }).record (.storeDead i)).record
            .handleRequest)
          N hN (inv_record (inv_record (inv_onEndpoint hinv _ _) _) _) (by omega)
        rw [hch]
        have hlogs : roundTrips s2.log = roundTrips s.log := by
          rw [hlog2]
          simp only [World.record, World.onEndpoint, roundTrips_storeDead,
            roundTrips_handleRequest]
        rcases hres with ⟨k, rfl, _, hst, _⟩ | ⟨e, rfl, hwe, _⟩
        · simp only []
          rw [ServeHTTP_succ, proxyServeHTTP_succ, hup]
          simp only []
          obtain ⟨s', hs', hinv', hrt, hw'⟩ := ih f k
            (r.WithValue .RETRY_ANOTHER_ENDP (getRetryFromContext .RETRY_ANOTHER_ENDP r + 1))
            (((s2.record (.ServeHTTP k)).onEndpoint k fun e =>
              { e with ActiveConnections := uint64Add e.ActiveConnections 1 }).record
              (.roundTrip k))
            (by
              unfold rank maxRetry
              rw [getRetry_withValue_same, getRetry_withValue_other _ _ _ _ (by decide)]
              omega)
            (by omega) (inv_record (inv_onEndpoint (inv_record hinv2 _) _ _) _)
            (by
              have : s2.w.status = none := by rw [hst]; exact hw
              simpa [World.record, World.onEndpoint] using this)
          rw [hs']
          refine ⟨_, rfl, inv_onEndpoint hinv' _ _, ?_, ?_⟩
          · have e1 : roundTrips
                ((((s2.record (.ServeHTTP k)).onEndpoint k fun e =>
                  { e with ActiveConnections := uint64Add e.ActiveConnections 1 }).record
                  (.roundTrip k)).log) = roundTrips s.log + 1 := by
              simp only [World.record, World.onEndpoint, roundTrips_roundTrip,
                roundTrips_ServeHTTP, hlogs]
            rw [e1] at hrt
            simp only [World.onEndpoint]
            omega
          · simpa [World.onEndpoint] using hw'
        · simp only []
          refine ⟨s2, rfl, hinv2, by omega, ?_⟩
          rw [hwe]
          simp [httpError, World.record, World.onEndpoint, hw]
      · rw [if_neg hb]
        refine ⟨_, rfl, inv_record (inv_onEndpoint hinv i _) (.storeDead i), ?_, ?_⟩
        · simp [World.record, World.onEndpoint, roundTrips_storeDead]
        · simp [httpError, hw]

/-! ## The retry ladder on a failing endpoint -/

theorem proxy_same_endpoint_retries (conf : StatelessSessionPersistence) (up : Upstream)
    (i : Nat) (hup : ∀ log, up log i = .failed) (fuel : Nat) (r : Request) (s : World)
    (hr : getRetryFromContext .RETRY_SAME_ENDP r = 0) :
    proxyServeHTTP conf up (fuel + 8) i r s
      = ErrorHandler conf up (fuel + 1) i
          (((r.WithValue .RETRY_SAME_ENDP 1).WithValue .RETRY_SAME_ENDP 2).WithValue
            .RETRY_SAME_ENDP 3) false
          ((((s.record (.roundTrip i)).record (.roundTrip i)).record (.roundTrip i)).record
            (.roundTrip i)) := by
  rw [proxyServeHTTP_succ, hup]
  simp only []
  rw [ErrorHandler_succ, hr, if_pos (by decide), proxyServeHTTP_succ, hup]
  simp only []
  rw [ErrorHandler_succ, getRetry_withValue_same, if_pos (by decide), proxyServeHTTP_succ, hup]
  simp only []
  rw [ErrorHandler_succ, getRetry_withValue_same, if_pos (by decide), proxyServeHTTP_succ, hup]

theorem aliveAt_updateAt_dead (es : List Endpoint) (i : Nat) (hi : i < es.length) :
    aliveAt (updateAt (fun e => { e with Alive := false }) es i) i = false := by
  induction es generalizing i with
  | nil => simp at hi
  | cons e es ih =>
    cases i with
    | zero => rfl
    | succ i => exact ih i (by simpa using hi)

/-! ## Session affinity -/

theorem sessionScan_first (v : GoString) :
    ∀ (es : List Endpoint) (pos k : Nat) (e : Endpoint), es.get? k = some e →
      e.Signature = v → (∀ m e', m < k → es.get? m = some e' → e'.Signature ≠ v) →
      sessionScan v es pos = .ok (pos + k) := by
  intro es
  induction es with
  | nil => intro pos k e h; simp at h
  | cons x xs ih =>
    intro pos k e hget hsig hfirst
    cases k with
    | zero =>
      simp only [List.get?_cons_zero, Option.some.injEq] at hget
      subst hget
      simp [sessionScan, hsig]
    | succ k =>
      have hx : x.Signature ≠ v := hfirst 0 x (by omega) rfl
      simp only [sessionScan, hx, if_false]
      rw [ih (pos + 1) k e hget hsig (fun m e' hm hg => hfirst (m + 1) e' (by omega) hg)]
      congr 1
      omega

/-! ## Active connections -/

theorem counters_updateAt (f : Endpoint → Endpoint) (g : Nat → Nat)
    (hfg : ∀ e, (f e).ActiveConnections = g e.ActiveConnections) :
    ∀ (es : List Endpoint) (i : Nat),
      (updateAt f es i).map (·.ActiveConnections) = bumpAt g (es.map (·.ActiveConnections)) i := by
  intro es
  induction es with
  | nil => intro i; rfl
  | cons e es ih =>
    intro i
    cases i with
    | zero => simp [updateAt, bumpAt, hfg]
    | succ i => simp [updateAt, bumpAt, ih]

theorem bumpAt_id : ∀ (l : List Nat) (i : Nat), bumpAt (fun c => c) l i = l := by
  intro l
  induction l with
  | nil => intro i; rfl
  | cons c cs ih =>
    intro i
    cases i with
    | zero => rfl
    | succ i => simp [bumpAt, ih]

theorem bumpAt_sub_add : ∀ (l : List Nat) (i : Nat), (∀ c ∈ l, c < 2 ^ 64) →
    bumpAt (fun c => uint64Sub c 1) (bumpAt (fun c => uint64Add c 1) l i) i = l := by
  intro l
  induction l with
  | nil => intro i _; rfl
  | cons c cs ih =>
    intro i h
    cases i with
    | zero =>
      have hc : c < 2 ^ 64 := h c (List.mem_cons_self _ _)
      simp only [bumpAt, List.cons.injEq, and_true]
      unfold uint64Sub uint64Add
      norm_num at hc ⊢
      omega
    | succ i =>
      simp only [bumpAt, List.cons.injEq, true_and]
      exact ih i (fun x hx => h x (List.mem_cons_of_mem _ hx))

theorem bumpAt_lt : ∀ (l : List Nat) (i : Nat), (∀ c ∈ l, c < 2 ^ 64) →
    ∀ c ∈ bumpAt (fun c => uint64Add c 1) l i, c < 2 ^ 64 := by
  intro l
  induction l with
  | nil => intro i _ c hc; simp [bumpAt] at hc
  | cons x xs ih =>
    intro i h c hc
    cases i with
    | zero =>
      simp only [bumpAt, List.mem_cons] at hc
      rcases hc with rfl | hc
      · unfold uint64Add
        exact Nat.mod_lt _ (by norm_num)
      · exact h c (List.mem_cons_of_mem _ hc)
    | succ i =>
      simp only [bumpAt, List.mem_cons] at hc
      rcases hc with rfl | hc
      · exact h _ (List.mem_cons_self _ _)
      · exact ih i (fun y hy => h y (List.mem_cons_of_mem _ hy)) c hc

theorem counters_onEndpoint (s : World) (i : Nat) (f : Endpoint → Endpoint) (g : Nat → Nat)
    (hfg : ∀ e, (f e).ActiveConnections = g e.ActiveConnections) :
    (s.onEndpoint i f).counters = bumpAt g s.counters i :=
  counters_updateAt f g hfg _ _

theorem counters_choose {conf : StatelessSessionPersistence} {fuel : Nat} {r : Request}
    {s s' : World} {res : Result Nat} (h : Group.choose conf fuel r s = some (res, s')) :
    s'.counters = s.counters := by
  unfold Group.choose at h
  simp only [] at h
  split at h
  · cases h
    rfl
  · split at h
    · cases h
    · cases h
      rfl
    · cases h
      rfl
    · split at h
      · split at h <;> (cases h; rfl)
      · cases h
        rfl

/-- On every call of the request path that returns without panicking, every endpoint's
`ActiveConnections` counter is back at its value at entry. -/
theorem counters_restored (conf : StatelessSessionPersistence) (up : Upstream) :
    ∀ (fuel : Nat),
      (∀ i r s s', (∀ c ∈ s.counters, c < 2 ^ 64) →
          proxyServeHTTP conf up fuel i r s = some (.returned, s') → s'.counters = s.counters)
      ∧ (∀ i r c s s', (∀ c ∈ s.counters, c < 2 ^ 64) →
          ErrorHandler conf up fuel i r c s = some (.returned, s') → s'.counters = s.counters)
      ∧ (∀ i r s s', (∀ c ∈ s.counters, c < 2 ^ 64) →
          Endpoint.ServeHTTP conf up fuel i r s = some (.returned, s') → s'.counters = s.counters)
      ∧ (∀ r s s', (∀ c ∈ s.counters, c < 2 ^ 64) →
          Group.handleRequest conf up fuel r s = some (.returned, s') →
          s'.counters = s.counters) := by
  intro fuel
  induction fuel with
  | zero =>
    refine ⟨?_, ?_, ?_, ?_⟩
    · intro i r s s' _ h
      simp [proxyServeHTTP] at h
    · intro i r c s s' _ h
      simp [ErrorHandler] at h
    · intro i r s s' _ h
      simp [Endpoint.ServeHTTP] at h
    · intro r s s' _ h
      simp [Group.handleRequest] at h
  | succ f ih =>
    obtain ⟨ihp, ihe, ihs, ihh⟩ := ih
    refine ⟨?_, ?_, ?_, ?_⟩
    · intro i r s s' hlt h
      rw [proxyServeHTTP_succ] at h
      split at h
      · cases h
        rfl
      · cases h
      · exact ihe i r true (s.record (.roundTrip i)) s' hlt h
      · exact ihe i r false (s.record (.roundTrip i)) s' hlt h
    · intro i r c s s' hlt h
      have hdead : ((s.onEndpoint i fun e => { e with Alive := false }).record
          (.storeDead i)).counters = s.counters := by
        have := counters_onEndpoint s i (fun e => { e with Alive := false }) (fun c => c)
          (fun _ => rfl)
        rw [bumpAt_id] at this
        exact this
      cases c with
      | true =>
        rw [ErrorHandler_canceled] at h
        cases h
        rfl
      | false =>
        rw [ErrorHandler_succ] at h
        split at h
        · exact ihp i _ s s' hlt h
        · split at h
          · rw [← hdead]
            exact ihh _ _ s' (by rw [hdead]; exact hlt) h
          · cases h
            exact hdead
    · intro i r s s' hlt h
      rw [ServeHTTP_succ] at h
      have hinc : ((s.record (.ServeHTTP i)).onEndpoint i fun e =>
          { e with ActiveConnections := uint64Add e.ActiveConnections 1 }).counters
          = bumpAt (fun c => uint64Add c 1) s.counters i :=
        counters_onEndpoint _ i
          (fun e => { e with ActiveConnections := uint64Add e.ActiveConnections 1 })
          (fun c => uint64Add c 1) (fun _ => rfl)
      split at h
      · cases h
      · cases h
      · rename_i s1 hp
        cases h
        have hlt' : ∀ c ∈ ((s.record (.ServeHTTP i)).onEndpoint i fun e =>
            { e with ActiveConnections := uint64Add e.ActiveConnections 1 }).counters,
            c < 2 ^ 64 := by
          rw [hinc]
          exact bumpAt_lt _ _ hlt
        have h1 := ihp i r _ s1 hlt' hp
        rw [counters_onEndpoint s1 i
          (fun e => { e with ActiveConnections := uint64Sub e.ActiveConnections 1 })
          (fun c => uint64Sub c 1) (fun _ => rfl), h1, hinc]
        exact bumpAt_sub_add _ _ hlt
    · intro r s s' hlt h
      rw [handleRequest_succ] at h
      split at h
      · cases h
      · cases h
      · rename_i hch
        cases h
        exact counters_choose (s := s.record .handleRequest) hch
      · rename_i k s2 hch
        have h2 : s2.counters = s.counters :=
          counters_choose (s := s.record .handleRequest) hch
        rw [← h2]
        exact ihs k r s2 s' (by rw [h2]; exact hlt) h

/-- When the reverse proxy panics on the first round trip, `Endpoint.ServeHTTP` leaves the
counter of its endpoint one above its value at entry. -/
theorem counters_after_panic (conf : StatelessSessionPersistence) (up : Upstream)
    (fuel i : Nat) (r : Request) (s : World) (code : Nat)
    (hup : up (s.log ++ [.ServeHTTP i]) i = .aborted code) :
    ∃ s', Endpoint.ServeHTTP conf up (fuel + 2) i r s = some (.panicked, s')
      ∧ s'.counters = bumpAt (fun c => uint64Add c 1) s.counters i := by
  rw [ServeHTTP_succ, proxyServeHTTP_succ]
  have hlog : ((s.record (.ServeHTTP i)).onEndpoint i fun e =>
      { e with ActiveConnections := uint64Add e.ActiveConnections 1 }).log
      = s.log ++ [.ServeHTTP i] := rfl
  rw [hlog, hup]
  exact ⟨_, rfl, counters_onEndpoint _ i
    (fun e => { e with ActiveConnections := uint64Add e.ActiveConnections 1 })
    (fun c => uint64Add c 1) (fun _ => rfl)⟩

/-! ## The affinity cookie -/

theorem join_eq_joinedSettings (sep : GoString) (hsep : sep = "; ".toList) :
    ∀ settings : List GoString, Join settings sep = joinedSettings settings := by
  intro settings
  subst hsep
  unfold Join
  induction settings with
  | nil => rfl
  | cons x rest ih =>
    cases rest with
    | nil => simp [List.intercalate, joinedSettings]
    | cons y rest =>
      simp only [List.intercalate, List.intersperse, List.flatten_cons, joinedSettings] at ih ⊢
      rw [ih, List.append_assoc]

/-! ## The retry ladder after the same-endpoint retries are used up -/

theorem aliveAt_updateAt_same (f : Endpoint → Endpoint) (hf : ∀ e, (f e).Alive = e.Alive) :
    ∀ (es : List Endpoint) (i j : Nat), aliveAt (updateAt f es i) j = aliveAt es j := by
  intro es
  induction es with
  | nil => intro i j; rfl
  | cons e es ih =>
    intro i j
    cases i with
    | zero =>
      cases j with
      | zero => exact hf e
      | succ j => rfl
    | succ i =>
      cases j with
      | zero => rfl
      | succ j => exact ih i j

theorem aliveAt_updateAt_ne (f : Endpoint → Endpoint) :
    ∀ (es : List Endpoint) (i j : Nat), j ≠ i → aliveAt (updateAt f es i) j = aliveAt es j := by
  intro es
  induction es with
  | nil => intro i j _; rfl
  | cons e es ih =>
    intro i j hji
    cases i with
    | zero =>
      cases j with
      | zero => exact absurd rfl hji
      | succ j => rfl
    | succ i =>
      cases j with
      | zero => rfl
      | succ j => exact ih i j (fun h => hji (by rw [h]))

theorem aliveAt_updateAt_store_false :
    ∀ (es : List Endpoint) (i : Nat),
      aliveAt (updateAt (fun e => { e with Alive := false }) es i) i = false := by
  intro es
  induction es with
  | nil => intro i; rfl
  | cons e es ih =>
    intro i
    cases i with
    | zero => rfl
    | succ i => exact ih i

theorem roundTripsTo_append (log : List Event) (e : Event) (j : Nat) :
    roundTripsTo (log ++ [e]) j = roundTripsTo log j + if e = .roundTrip j then 1 else 0 := by
  unfold roundTripsTo
  rw [List.count_append, List.count_singleton]
  simp only [beq_iff_eq]

theorem servesOf_append (log : List Event) (e : Event) (j : Nat) :
    servesOf (log ++ [e]) j = servesOf log j + if e = .ServeHTTP j then 1 else 0 := by
  unfold servesOf
  rw [List.count_append, List.count_singleton]
  simp only [beq_iff_eq]

theorem ServeHTTP_wrap (conf : StatelessSessionPersistence) (up : Upstream)
    (fuel k : Nat) (r : Request) (s s4 : World) (exit : Exit) (N : Nat)
    (h : proxyServeHTTP conf up fuel k r
        ((s.record (.ServeHTTP k)).onEndpoint k fun e =>
          { e with ActiveConnections := uint64Add e.ActiveConnections 1 })
      = some (exit, s4)) :
    ∃ s', Endpoint.ServeHTTP conf up (fuel + 1) k r s = some (exit, s')
      ∧ s'.log = s4.log ∧ s'.w = s4.w
      ∧ (∀ j, aliveAt s'.group.Endpoints j = aliveAt s4.group.Endpoints j)
      ∧ (s4.inv N → s'.inv N) := by
  rw [ServeHTTP_succ, h]
  cases exit with
  | panicked => exact ⟨s4, rfl, rfl, rfl, fun _ => rfl, fun h => h⟩
  | returned =>
    refine ⟨s4.onEndpoint k fun e =>
        { e with ActiveConnections := uint64Sub e.ActiveConnections 1 }, rfl, rfl, rfl,
      fun j => ?_, fun h => inv_onEndpoint h k _⟩
    exact aliveAt_updateAt_same
      (fun e => { e with ActiveConnections := uint64Sub e.ActiveConnections 1 })
      (fun _ => rfl) s4.group.Endpoints k j

theorem counts_attempt (log : List Event) (k j : Nat) :
    roundTripsTo (log ++ [.handleRequest] ++ [.ServeHTTP k] ++ [.roundTrip k]) j
        = roundTripsTo log j + (if k = j then 1 else 0)
      ∧ servesOf (log ++ [.handleRequest] ++ [.ServeHTTP k] ++ [.roundTrip k]) j
        = servesOf log j + (if k = j then 1 else 0) := by
  simp only [roundTripsTo_append, servesOf_append, reduceCtorEq, if_false, Nat.add_zero,
    Event.roundTrip.injEq, Event.ServeHTTP.injEq, and_self]

theorem counts_storeDead (log : List Event) (k j : Nat) :
    roundTripsTo (log ++ [.storeDead k]) j = roundTripsTo log j
      ∧ servesOf (log ++ [.storeDead k]) j = servesOf log j := by
  simp only [roundTripsTo_append, servesOf_append, reduceCtorEq, if_false, Nat.add_zero,
    and_self]

theorem counts_handleRequest (log : List Event) (j : Nat) :
    roundTripsTo (log ++ [.handleRequest]) j = roundTripsTo log j
      ∧ servesOf (log ++ [.handleRequest]) j = servesOf log j := by
  simp only [roundTripsTo_append, servesOf_append, reduceCtorEq, if_false, Nat.add_zero,
    and_self]

theorem ladder_single_attempts (conf : StatelessSessionPersistence) (up : Upstream)
    (N : Nat) (hN : N < 2 ^ 32) :
    ∀ (m fuel : Nat) (r : Request) (s : World),
      maxRetry ≤ getRetryFromContext .RETRY_SAME_ENDP r →
      maxRetry - getRetryFromContext .RETRY_ANOTHER_ENDP r = m →
      4 * m + N + 4 ≤ fuel → s.inv N →
      ∃ exit s', Group.handleRequest conf up fuel r s = some (exit, s') ∧ s'.inv N
        ∧ (∀ j, aliveAt s.group.Endpoints j = false → aliveAt s'.group.Endpoints j = false)
        ∧ (∀ j, ∃ c, c ≤ (if aliveAt s.group.Endpoints j then 1 else 0)
            ∧ roundTripsTo s'.log j = roundTripsTo s.log j + c
            ∧ servesOf s'.log j = servesOf s.log j + c) := by
  intro m
  induction m using Nat.strong_induction_on with
  | _ m ih =>
    intro fuel r s hsame hm hf hinv
    obtain ⟨f, rfl⟩ : ∃ f, fuel = f + 4 := ⟨fuel - 4, by omega⟩
    rw [handleRequest_succ]
    obtain ⟨res, s1, hch, hinv1, hlog1, heps1, hres⟩ := choose_spec conf (f + 3) r
      (s.record .handleRequest) N hN (inv_record hinv _) (by omega)
    rw [hch]
    simp only [World.record] at hlog1 heps1
    rcases hres with ⟨k, rfl, hk, _, _⟩ | ⟨e, rfl, _, _⟩
    · simp only [World.record] at hk
      simp only []
      generalize hs2 : ((s1.record (.ServeHTTP k)).onEndpoint k fun e =>
        { e with ActiveConnections := uint64Add e.ActiveConnections 1 }) = s2
      have hlog2 : s2.log = s.log ++ [.handleRequest] ++ [.ServeHTTP k] := by
        rw [← hs2]
        simp only [World.record, World.onEndpoint, hlog1]
      have hal2 : ∀ j, aliveAt s2.group.Endpoints j = aliveAt s.group.Endpoints j := by
        intro j
        rw [← hs2]
        simp only [World.record, World.onEndpoint, heps1]
        exact aliveAt_updateAt_same
          (fun e => { e with ActiveConnections := uint64Add e.ActiveConnections 1 })
          (fun _ => rfl) s.group.Endpoints k j
      have hinv2 : s2.inv N := by
        rw [← hs2]
        exact inv_onEndpoint (inv_record hinv1 _) k _
      have hkone : ∀ j, (if k = j then 1 else 0)
          ≤ (if aliveAt s.group.Endpoints j then 1 else 0) := by
        intro j
        by_cases hkj : k = j
        · rw [← hkj, hk]
          simp
        · rw [if_neg hkj]
          exact Nat.zero_le _
      have key : ∃ exit s4, proxyServeHTTP conf up (f + 2) k r s2 = some (exit, s4)
          ∧ s4.inv N
          ∧ (∀ j, aliveAt s.group.Endpoints j = false → aliveAt s4.group.Endpoints j = false)
          ∧ (∀ j, ∃ c, c ≤ (if aliveAt s.group.Endpoints j then 1 else 0)
              ∧ roundTripsTo s4.log j = roundTripsTo s.log j + c
              ∧ servesOf s4.log j = servesOf s.log j + c) := by
        have hone : ∀ (s4 : World),
            s4.log = s.log ++ [.handleRequest] ++ [.ServeHTTP k] ++ [.roundTrip k] →
            ∀ j, ∃ c, c ≤ (if aliveAt s.group.Endpoints j then 1 else 0)
              ∧ roundTripsTo s4.log j = roundTripsTo s.log j + c
              ∧ servesOf s4.log j = servesOf s.log j + c := by
          intro s4 h4 j
          refine ⟨if k = j then 1 else 0, hkone j, ?_, ?_⟩
          · rw [h4, (counts_attempt s.log k j).1]
          · rw [h4, (counts_attempt s.log k j).2]
        rw [proxyServeHTTP_succ]
        cases hout : up s2.log k with
        | response code =>
          simp only []
          exact ⟨_, _, rfl, hinv2, fun j hj => by rw [← hal2 j] at hj; exact hj,
            hone { s2.record (.roundTrip k) with w := relay s2.w k code }
              (by simp only [World.record, hlog2])⟩
        | aborted code =>
          simp only []
          exact ⟨_, _, rfl, hinv2, fun j hj => by rw [← hal2 j] at hj; exact hj,
            hone { s2.record (.roundTrip k) with w := relay s2.w k code }
              (by simp only [World.record, hlog2])⟩
        | canceled =>
          simp only []
          rw [ErrorHandler_canceled]
          exact ⟨_, _, rfl, hinv2, fun j hj => by rw [← hal2 j] at hj; exact hj,
            hone (s2.record (.roundTrip k)) (by simp only [World.record, hlog2])⟩
        | failed =>
          simp only []
          unfold maxRetry at hsame hm
          rw [ErrorHandler_succ, if_neg (by unfold maxRetry; omega)]
          generalize hs3 : (((s2.record (.roundTrip k)).onEndpoint k fun e =>
            { e with Alive := false }).record (.storeDead k)) = s3
          have hlog3 : s3.log = s.log ++ [.handleRequest] ++ [.ServeHTTP k] ++ [.roundTrip k]
              ++ [.storeDead k] := by
            rw [← hs3]
            simp only [World.record, World.onEndpoint, hlog2]
          have hal3k : aliveAt s3.group.Endpoints k = false := by
            rw [← hs3]
            exact aliveAt_updateAt_store_false _ k
          have hal3 : ∀ j, j ≠ k →
              aliveAt s3.group.Endpoints j = aliveAt s.group.Endpoints j := by
            intro j hj
            rw [← hs3, ← hal2 j]
            exact aliveAt_updateAt_ne _ _ k j hj
          have hmono3 : ∀ j, aliveAt s.group.Endpoints j = false →
              aliveAt s3.group.Endpoints j = false := by
            intro j hj
            by_cases hjk : j = k
            · rw [hjk]; exact hal3k
            · rw [hal3 j hjk]; exact hj
          have hinv3 : s3.inv N := by
            rw [← hs3]
            exact inv_record (inv_onEndpoint (inv_record hinv2 _) k _) _
          have hcnt3 : ∀ j, roundTripsTo s3.log j
                = roundTripsTo s.log j + (if k = j then 1 else 0)
              ∧ servesOf s3.log j = servesOf s.log j + (if k = j then 1 else 0) := by
            intro j
            rw [hlog3, (counts_storeDead _ k j).1, (counts_storeDead _ k j).2]
            exact counts_attempt s.log k j
          by_cases hb : getRetryFromContext .RETRY_ANOTHER_ENDP r < maxRetry
          · rw [if_pos hb]
            unfold maxRetry at hb
            obtain ⟨exit, s4, h4, hinv4, hmono4, hcnt4⟩ :=
              ih (maxRetry - (getRetryFromContext .RETRY_ANOTHER_ENDP r + 1))
                (by unfold maxRetry; omega) f
                (r.WithValue .RETRY_ANOTHER_ENDP
                  (getRetryFromContext .RETRY_ANOTHER_ENDP r + 1)) s3
                (by
                  rw [getRetry_withValue_other _ _ _ _ (by decide)]
                  unfold maxRetry
                  exact hsame)
                (by rw [getRetry_withValue_same])
                (by unfold maxRetry; omega) hinv3
            refine ⟨exit, s4, h4, hinv4, fun j hj => hmono4 j (hmono3 j hj), fun j => ?_⟩
            obtain ⟨c4, hc4, hr4, hv4⟩ := hcnt4 j
            refine ⟨(if k = j then 1 else 0) + c4, ?_, ?_, ?_⟩
            · by_cases hkj : k = j
              · rw [← hkj, hal3k] at hc4
                rw [if_pos hkj, ← hkj, hk]
                simp only [Bool.false_eq_true, if_false, Nat.le_zero_eq] at hc4
                simp [hc4]
              · rw [hal3 j (fun h => hkj h.symm)] at hc4
                rw [if_neg hkj, Nat.zero_add]
                exact hc4
            · rw [hr4, (hcnt3 j).1, Nat.add_assoc]
            · rw [hv4, (hcnt3 j).2, Nat.add_assoc]
          · rw [if_neg hb]
            refine ⟨.returned, { s3 with w := httpError s2.w 503 }, ?_, hinv3,
              hmono3, fun j => ⟨if k = j then 1 else 0, hkone j, (hcnt3 j).1, (hcnt3 j).2⟩⟩
            rw [← hs3]
            rfl
      obtain ⟨exit, s4, hp, hinv4, hmono4, hcnt4⟩ := key
      rw [← hs2] at hp
      obtain ⟨s', hs', hlog', _, hal', hinv'⟩ :=
        ServeHTTP_wrap conf up (f + 2) k r s1 s4 exit N hp
      refine ⟨exit, s', hs', hinv' hinv4, fun j hj => ?_, fun j => ?_⟩
      · rw [hal' j]
        exact hmono4 j hj
      · rw [hlog']
        exact hcnt4 j
    · simp only []
      refine ⟨.returned, s1, rfl, hinv1, fun j hj => by rw [heps1]; exact hj, fun j => ?_⟩
      refine ⟨0, Nat.zero_le _, ?_, ?_⟩
      · rw [hlog1, (counts_handleRequest s.log j).1, Nat.add_zero]
      · rw [hlog1, (counts_handleRequest s.log j).2, Nat.add_zero]

/-! ## Same-endpoint retries that end on the endpoint -/

theorem replicate_shift (log : List Event) (e : Event) (m : Nat) :
    (log ++ [e]) ++ List.replicate m e = log ++ List.replicate (m + 1) e := by
  rw [List.append_assoc, List.replicate_succ]
  rfl

theorem proxy_retries_then_settles (conf : StatelessSessionPersistence) (up : Upstream)
    (k : Nat) :
    ∀ (n fuel : Nat) (r : Request) (s : World),
      getRetryFromContext .RETRY_SAME_ENDP r + n ≤ maxRetry →
      (∀ m < n, up (s.log ++ List.replicate m (.roundTrip k)) k = .failed) →
      up (s.log ++ List.replicate n (.roundTrip k)) k ≠ .failed →
      ∃ exit s', proxyServeHTTP conf up (fuel + 2 * n + 2) k r s = some (exit, s')
        ∧ s'.group = s.group ∧ s'.w.header = s.w.header
        ∧ s'.log = s.log ++ List.replicate (n + 1) (.roundTrip k)
        ∧ (∀ code, up (s.log ++ List.replicate n (.roundTrip k)) k = .response code →
            exit = .returned ∧ s'.w = relay s.w k code)
        ∧ (∀ code, up (s.log ++ List.replicate n (.roundTrip k)) k = .aborted code →
            exit = .panicked ∧ s'.w = relay s.w k code)
        ∧ (up (s.log ++ List.replicate n (.roundTrip k)) k = .canceled →
            exit = .returned ∧ s'.w = s.w) := by
  intro n
  induction n with
  | zero =>
    intro fuel r s _ _ hlast
    simp only [List.replicate_zero, List.append_nil] at hlast ⊢
    rw [proxyServeHTTP_succ]
    have hrelay : ∀ code, (relay s.w k code).header = s.w.header := by
      intro code
      unfold relay
      split <;> rfl
    cases hout : up s.log k with
    | response code =>
      simp only []
      exact ⟨_, _, rfl, rfl, hrelay code, rfl,
        fun c hc => (by cases hc; exact ⟨rfl, rfl⟩), fun c hc => (by cases hc),
        fun hc => (by cases hc)⟩
    | aborted code =>
      simp only []
      exact ⟨_, _, rfl, rfl, hrelay code, rfl,
        fun c hc => (by cases hc), fun c hc => (by cases hc; exact ⟨rfl, rfl⟩),
        fun hc => (by cases hc)⟩
    | canceled =>
      simp only []
      rw [ErrorHandler_canceled]
      exact ⟨_, _, rfl, rfl, rfl, rfl,
        fun c hc => (by cases hc), fun c hc => (by cases hc), fun _ => ⟨rfl, rfl⟩⟩
    | failed => exact absurd hout hlast
  | succ n ih =>
    intro fuel r s hsame hfail hlast
    have h0 : up s.log k = .failed := by
      have := hfail 0 (by omega)
      simpa using this
    have hlt : getRetryFromContext .RETRY_SAME_ENDP r < maxRetry := by omega
    rw [show fuel + 2 * (n + 1) + 2 = (fuel + 2 * n + 2) + 1 + 1 by omega,
      proxyServeHTTP_succ, h0]
    simp only []
    rw [ErrorHandler_succ, if_pos hlt]
    obtain ⟨exit, s', h, hg, hh, hl, hr, ha, hc⟩ := ih fuel
      (r.WithValue .RETRY_SAME_ENDP (getRetryFromContext .RETRY_SAME_ENDP r + 1))
      (s.record (.roundTrip k))
      (by rw [getRetry_withValue_same]; omega)
      (fun m hm => by
        simp only [World.record]
        rw [replicate_shift]
        exact hfail (m + 1) (by omega))
      (by
        simp only [World.record]
        rw [replicate_shift]
        exact hlast)
    simp only [World.record] at hg hh hl hr ha hc
    rw [replicate_shift] at hl hr ha hc
    exact ⟨exit, s', h, hg, hh, hl, hr, ha, hc⟩

theorem proxy_all_fail_gives_up (conf : StatelessSessionPersistence) (up : Upstream)
    (k : Nat) :
    ∀ (n fuel : Nat) (r : Request) (s : World),
      maxRetry - getRetryFromContext .RETRY_SAME_ENDP r = n →
      maxRetry ≤ getRetryFromContext .RETRY_ANOTHER_ENDP r →
      (∀ m ≤ n, up (s.log ++ List.replicate m (.roundTrip k)) k = .failed) →
      ∃ s', proxyServeHTTP conf up (fuel + 2 * n + 2) k r s = some (.returned, s')
        ∧ s'.group.balance = s.group.balance ∧ s'.w = httpError s.w 503
        ∧ s'.log = s.log ++ List.replicate (n + 1) (.roundTrip k) ++ [.storeDead k]
        ∧ aliveAt s'.group.Endpoints k = false := by
  intro n
  induction n with
  | zero =>
    intro fuel r s hsame hanother hfail
    have h0 : up s.log k = .failed := by
      have := hfail 0 (le_refl _)
      simpa using this
    rw [proxyServeHTTP_succ, h0]
    simp only []
    rw [ErrorHandler_succ, if_neg (by omega), if_neg (by omega)]
    exact ⟨_, rfl, rfl, rfl, rfl, aliveAt_updateAt_store_false _ k⟩
  | succ n ih =>
    intro fuel r s hsame hanother hfail
    have h0 : up s.log k = .failed := by
      have := hfail 0 (by omega)
      simpa using this
    have hlt : getRetryFromContext .RETRY_SAME_ENDP r < maxRetry := by omega
    rw [show fuel + 2 * (n + 1) + 2 = (fuel + 2 * n + 2) + 1 + 1 by omega,
      proxyServeHTTP_succ, h0]
    simp only []
    rw [ErrorHandler_succ, if_pos hlt]
    obtain ⟨s', h, hb, hw, hl, hal⟩ := ih fuel
      (r.WithValue .RETRY_SAME_ENDP (getRetryFromContext .RETRY_SAME_ENDP r + 1))
      (s.record (.roundTrip k))
      (by rw [getRetry_withValue_same]; omega)
      (by rw [getRetry_withValue_other _ _ _ _ (by decide)]; exact hanother)
      (fun m hm => by
        simp only [World.record]
        rw [replicate_shift]
        exact hfail (m + 1) (by omega))
    simp only [World.record] at hb hw hl
    rw [replicate_shift] at hl
    exact ⟨s', h, hb, hw, hl, hal⟩

/-! ## Claims -/

/-- Claim C1 (liveness gating). For every endpoint list, either policy (round robin with its
index below the list length, or failover) and every assignment of alive flags,
`Group.getBalancedEndpoint` returns (given fuel for `len + 1` balancer steps) either an error
or a position `j` of the list whose endpoint is alive; on the empty list it returns the error
"no endpoints available", and on a one-element list it returns that endpoint if it is alive
and an error otherwise. -/
theorem getBalancedEndpoint_liveness_gating (group : Group) (endpoints : List Endpoint)
    (fuel : Nat) (hN : endpoints.length < 2 ^ 32)
    (hidx : ∀ i, group.balance = .roundRobin i → 2 ≤ endpoints.length → i < endpoints.length)
    (hf : endpoints.length + 1 ≤ fuel) :
    (∃ res b, group.getBalancedEndpoint fuel endpoints = some (res, b)
        ∧ ((∃ msg, res = .err msg)
          ∨ ∃ j e, res = .ok j ∧ endpoints.get? j = some e ∧ e ∈ endpoints ∧ e.Alive = true))
      ∧ (endpoints = [] →
          group.getBalancedEndpoint fuel endpoints
            = some (.err "no endpoints available", group.balance))
      ∧ (∀ e, endpoints = [e] →
          group.getBalancedEndpoint fuel endpoints
            = some (if e.Alive then .ok 0
                else .err "the only endpoint available is unreachable", group.balance)) := by
  refine ⟨?_, ?_, ?_⟩
  · match hE : endpoints with
    | [] => exact ⟨_, _, rfl, Or.inl ⟨_, rfl⟩⟩
    | [e] =>
      by_cases ha : e.Alive = true
      · refine ⟨.ok 0, group.balance, by simp [Group.getBalancedEndpoint, ha], Or.inr ?_⟩
        exact ⟨0, e, rfl, rfl, List.mem_singleton_self e, ha⟩
      · exact ⟨.err "the only endpoint available is unreachable", group.balance,
          by simp [Group.getBalancedEndpoint, ha], Or.inl ⟨_, rfl⟩⟩
    | e1 :: e2 :: rest =>
      subst hE
      have hlen : 2 ≤ (e1 :: e2 :: rest).length := by simp
      simp only [Group.getBalancedEndpoint]
      cases hb : group.balance with
      | roundRobin i =>
        obtain ⟨sel, hsel, _, hres⟩ :=
          balanced_total (e1 :: e2 :: rest) hN i (hidx i hb hlen) fuel hf
        refine ⟨sel.result, .roundRobin sel.endpointIndex, by simp [balance.balanced, hsel], ?_⟩
        rcases hres with ⟨j, hj, ha⟩ | ⟨herr, _⟩
        · obtain ⟨e, hg, hm, hal⟩ := aliveAt_mem ha
          exact Or.inr ⟨j, e, hj, hg, hm, hal⟩
        · exact Or.inl ⟨_, herr⟩
      | failover =>
        refine ⟨failover.balanced (e1 :: e2 :: rest), .failover, by simp [balance.balanced], ?_⟩
        by_cases h : ∃ e ∈ e1 :: e2 :: rest, e.Alive = true
        · obtain ⟨k, hk, hd⟩ := first_alive_of_mem _ h
          obtain ⟨e, hg, hm, hal⟩ := aliveAt_mem hk
          refine Or.inr ⟨k, e, ?_, hg, hm, hal⟩
          have := scan_first_alive _ 0 0 k hk hd
          rwa [Nat.zero_add] at this
        · refine Or.inl ⟨_, scan_none_alive _ 0 0 ?_⟩
          intro e he
          by_contra hne
          exact h ⟨e, he, by simpa using hne⟩
  · intro h
    subst h
    rfl
  · intro e h
    subst h
    by_cases ha : e.Alive = true <;> simp [Group.getBalancedEndpoint, ha]

/-- Claim C1 at a concrete input: round robin over `A, B (dead), C` with the index at `B`. -/
theorem getBalancedEndpoint_liveness_gating_witness :
    (∃ res b, Group.getBalancedEndpoint ⟨[], [], false, endpointsABdeadC, .roundRobin 1⟩ 4
          endpointsABdeadC = some (res, b)
        ∧ ((∃ msg, res = .err msg)
          ∨ ∃ j e, res = .ok j ∧ endpointsABdeadC.get? j = some e ∧ e ∈ endpointsABdeadC
              ∧ e.Alive = true)) :=
  (getBalancedEndpoint_liveness_gating ⟨[], [], false, endpointsABdeadC, .roundRobin 1⟩
    endpointsABdeadC 4 (by decide)
    (fun i h _ => by cases h; decide) (by decide)).1

/-- Claim C2 (failover determinism). For every endpoint list, `failover.balanced` returns
position `j` exactly when the endpoint at `j` is alive and every endpoint before it is dead
(the lowest-indexed alive endpoint), and it returns the error "all endpoints are down" exactly
when no endpoint of the list is alive. -/
theorem failover_balanced_lowest_alive (endpoints : List Endpoint) :
    (∀ j, failover.balanced endpoints = .ok j
        ↔ (aliveAt endpoints j = true ∧ ∀ m < j, aliveAt endpoints m = false))
      ∧ (failover.balanced endpoints = .err "all endpoints are down"
        ↔ ∀ e ∈ endpoints, e.Alive = false) := by
  by_cases h : ∃ e ∈ endpoints, e.Alive = true
  · obtain ⟨k, hk, hd⟩ := first_alive_of_mem _ h
    have hres : failover.balanced endpoints = .ok k := by
      have := scan_first_alive endpoints 0 0 k hk hd
      rwa [Nat.zero_add] at this
    refine ⟨fun j => ?_, ?_⟩
    · rw [hres]
      constructor
      · intro hj
        cases hj
        exact ⟨hk, hd⟩
      · rintro ⟨hj, hdj⟩
        rcases Nat.lt_trichotomy j k with hlt | heq | hgt
        · have := hd j hlt
          rw [hj] at this
          cases this
        · rw [heq]
        · have := hdj k hgt
          rw [hk] at this
          cases this
    · rw [hres]
      constructor
      · intro hc
        cases hc
      · intro hall
        obtain ⟨e, he, ha⟩ := h
        rw [hall e he] at ha
        cases ha
  · have hall : ∀ e ∈ endpoints, e.Alive = false := by
      intro e he
      by_contra hne
      exact h ⟨e, he, by simpa using hne⟩
    have hres : failover.balanced endpoints = .err "all endpoints are down" :=
      scan_none_alive endpoints 0 0 hall
    refine ⟨fun j => ?_, ?_⟩
    · rw [hres]
      constructor
      · intro hc
        cases hc
      · rintro ⟨hj, _⟩
        obtain ⟨e, _, hm, hal⟩ := aliveAt_mem hj
        rw [hall e hm] at hal
        cases hal
    · rw [hres]
      exact ⟨fun _ => hall, fun _ => rfl⟩

/-- Claim C3 (round-robin coverage). For `N ≥ 2` endpoints that are all alive, any start index
`i < N` and any number `K` of calls (in particular `K ≥ N`), a sequential run of `K` calls of
`roundRobin.balanced` returns the positions `i, i+1, ...` in cyclic order (from index `0`:
positions `0, 1, ...` modulo `N`), so every endpoint is selected at least `⌊K/N⌋` and at most
`⌈K/N⌉` times; over `A, B, C` six calls from index `0` select `A, B, C, A, B, C`. -/
theorem roundRobin_coverage (endpoints : List Endpoint) (K i fuel : Nat)
    (hN2 : 2 ≤ endpoints.length) (hN : endpoints.length < 2 ^ 32)
    (hall : ∀ e ∈ endpoints, e.Alive = true) (hi : i < endpoints.length)
    (hf : 1 ≤ fuel) :
    (∃ rs idx, roundRobin.calls endpoints fuel K i = some (rs, idx)
        ∧ rs = (List.range K).map (fun j => Result.ok ((i + j) % endpoints.length))
        ∧ (i = 0 → rs = (List.range K).map (fun j => Result.ok (j % endpoints.length)))
        ∧ ∀ e < endpoints.length,
            K / endpoints.length ≤ rs.count (.ok e)
              ∧ rs.count (.ok e) ≤ (K + endpoints.length - 1) / endpoints.length)
      ∧ roundRobin.calls endpointsABC 1 6 0
          = some ([.ok 0, .ok 1, .ok 2, .ok 0, .ok 1, .ok 2], 0) := by
  refine ⟨?_, by decide⟩
  obtain ⟨f, rfl⟩ : ∃ f, fuel = f + 1 := ⟨fuel - 1, by omega⟩
  have hal : ∀ j < endpoints.length, aliveAt endpoints j = true := by
    intro j hj
    unfold aliveAt
    rw [List.get?_eq_get hj]
    exact hall _ (List.get_mem _ _ _)
  refine ⟨_, _, calls_all_alive endpoints hN hal f K i hi, rfl, ?_, ?_⟩
  · intro h0
    subst h0
    simp only [Nat.zero_add]
  · intro e he
    rw [count_cyclic _ i e K hi he, ← ceil_div_bound _ K (by omega)]
    constructor
    · omega
    · split
      · rw [if_pos (by omega)]
      · omega

/-- Claim C3 at a concrete input: seven calls over `A, B, C` starting at `B`. -/
theorem roundRobin_coverage_witness :
    ∃ rs idx, roundRobin.calls endpointsABC 1 7 1 = some (rs, idx)
      ∧ rs = (List.range 7).map (fun j => Result.ok ((1 + j) % endpointsABC.length))
      ∧ (1 = 0 → rs = (List.range 7).map (fun j => Result.ok (j % endpointsABC.length)))
      ∧ ∀ e < endpointsABC.length,
          7 / endpointsABC.length ≤ rs.count (.ok e)
            ∧ rs.count (.ok e) ≤ (7 + endpointsABC.length - 1) / endpointsABC.length :=
  (roundRobin_coverage endpointsABC 7 1 1 (by decide) (by decide) (by decide) (by decide)
    (by decide)).1

/-- Claim C4 (round robin skips dead endpoints). For `N` endpoints (in particular `N ≥ 2`) with
at least one alive and a current index `i < N`, there is an offset `d < N` such that the
positions `i, i+1, ..., i+d-1` (modulo `N`) are dead and `j = (i + d) mod N` is alive, and one
call of `roundRobin.balanced` returns position `j`, leaves the index at `(j + 1) mod N` and
reads `d + 1` alive flags; over `A, B, C` with `B` dead and the index at `A`, three calls
return `A, C, A`. -/
theorem roundRobin_skips_dead (endpoints : List Endpoint) (i fuel : Nat)
    (hN : endpoints.length < 2 ^ 32)
    (hsome : ∃ e ∈ endpoints, e.Alive = true) (hi : i < endpoints.length)
    (hf : endpoints.length ≤ fuel) :
    (∃ d, d < endpoints.length
        ∧ (∀ m < d, aliveAt endpoints ((i + m) % endpoints.length) = false)
        ∧ aliveAt endpoints ((i + d) % endpoints.length) = true
        ∧ roundRobin.balanced endpoints fuel i [] 0
            = some ⟨.ok ((i + d) % endpoints.length),
                ((i + d) % endpoints.length + 1) % endpoints.length, d + 1⟩)
      ∧ roundRobin.calls endpointsABdeadC 3 3 0 = some ([.ok 0, .ok 2, .ok 0], 1) := by
  refine ⟨?_, by decide⟩
  have hex : ∃ j, aliveAt endpoints j = true := by
    obtain ⟨k, hk, _⟩ := first_alive_of_mem endpoints hsome
    exact ⟨k, hk⟩
  obtain ⟨d, hd, hdead, ha⟩ := exists_first_alive endpoints i hi hex
  refine ⟨d, hd, hdead, ha, ?_⟩
  rw [balanced_skip endpoints hN d fuel i [] 0 hi (by omega) (by simp; omega) hdead ha,
    Nat.mod_add_mod, Nat.zero_add]

/-- Claim C4 at a concrete input: `A, B (dead), C` with the index at `B`. -/
theorem roundRobin_skips_dead_witness :
    ∃ d, d < endpointsABdeadC.length
      ∧ (∀ m < d, aliveAt endpointsABdeadC ((1 + m) % endpointsABdeadC.length) = false)
      ∧ aliveAt endpointsABdeadC ((1 + d) % endpointsABdeadC.length) = true
      ∧ roundRobin.balanced endpointsABdeadC 3 1 [] 0
          = some ⟨.ok ((1 + d) % endpointsABdeadC.length),
              ((1 + d) % endpointsABdeadC.length + 1) % endpointsABdeadC.length, d + 1⟩ :=
  (roundRobin_skips_dead endpointsABdeadC 1 3 (by decide)
    ⟨exampleEndpoint ['A'] true, by decide, by decide⟩ (by decide) (by decide)).1

/-- Claim C5 (retry bound). For every request, group and alive assignment, when every upstream
round trip fails with a non-cancellation error, `Group.handleRequest` returns after at most
`1 + maxRetry + maxRetry = 7` round trips and the client has received 503. -/
theorem retry_bound (conf : StatelessSessionPersistence) (up : Upstream) (g : Group)
    (r : Request) (w : ResponseWriter) (fuel : Nat)
    (hN : g.Endpoints.length < 2 ^ 32)
    (hidx : ∀ i, g.balance = .roundRobin i → 2 ≤ g.Endpoints.length → i < g.Endpoints.length)
    (hup : ∀ log i, up log i = .failed) (hw : w.status = none)
    (hf : g.Endpoints.length + 29 ≤ fuel) :
    ∃ s', Group.handleRequest conf up fuel r ⟨g, w, []⟩ = some (.returned, s')
      ∧ roundTrips s'.log ≤ 1 + maxRetry + maxRetry ∧ 1 + maxRetry + maxRetry = 7
      ∧ s'.w.status = some 503 := by
  obtain ⟨f, rfl⟩ : ∃ f, fuel = f + 3 := ⟨fuel - 3, by omega⟩
  have hinv : (World.mk g w []).inv g.Endpoints.length := ⟨rfl, hidx⟩
  rw [handleRequest_succ]
  obtain ⟨res, s2, hch, hinv2, hlog2, _, hres⟩ := choose_spec conf (f + 2) r
    ((World.mk g w []).record .handleRequest) g.Endpoints.length hN (inv_record hinv _)
    (by omega)
  rw [hch]
  have hlogs : roundTrips s2.log = 0 := by
    rw [hlog2]
    rfl
  rcases hres with ⟨k, rfl, _, hst, _⟩ | ⟨e, rfl, hwe, _⟩
  · simp only []
    rw [ServeHTTP_succ, proxyServeHTTP_succ, hup]
    simp only []
    obtain ⟨s', hs', _, hrt, hw'⟩ := ErrorHandler_allFail conf up hup g.Endpoints.length hN
      6 f k r
      (((s2.record (.ServeHTTP k)).onEndpoint k fun e =>
        { e with ActiveConnections := uint64Add e.ActiveConnections 1 }).record (.roundTrip k))
      (by unfold rank maxRetry; omega) (by omega)
      (inv_record (inv_onEndpoint (inv_record hinv2 _) _ _) _)
      (by
        have : s2.w.status = none := by rw [hst]; exact hw
        simpa [World.record, World.onEndpoint] using this)
    rw [hs']
    refine ⟨_, rfl, ?_, rfl, ?_⟩
    · simp only [World.record, World.onEndpoint, roundTrips_roundTrip, roundTrips_ServeHTTP,
        hlogs] at hrt
      simp only [World.onEndpoint, maxRetry]
      omega
    · simpa [World.onEndpoint] using hw'
  · simp only []
    refine ⟨s2, rfl, by omega, rfl, ?_⟩
    rw [hwe]
    simp [httpError, World.record, hw]

/-- Claim C5 at a concrete input: five alive endpoints that all refuse the connection. -/
theorem retry_bound_witness :
    ∃ s', Group.handleRequest defaultSession (fun _ _ => .failed) 34 requestX
          ⟨groupOfFive, freshWriter, []⟩ = some (.returned, s')
      ∧ roundTrips s'.log ≤ 1 + maxRetry + maxRetry ∧ 1 + maxRetry + maxRetry = 7
      ∧ s'.w.status = some 503 :=
  retry_bound defaultSession (fun _ _ => .failed) groupOfFive requestX freshWriter 34
    (by decide) (fun i h _ => by cases h) (fun _ _ => rfl) rfl (by decide)

theorem retry_bound_attained :
    (Group.handleRequest defaultSession (fun _ _ => .failed) 34 requestX
        ⟨groupOfFive, freshWriter, []⟩).map (fun out => roundTrips out.2.log) = some 7 := by
  decide

/-- Claim C6, as amended (retry ladder, scenario S4). For a group with two endpoints `A` and
`B`, both alive, a fresh request for which the group selects `A` first, `A` failing every round
trip and `B` answering: one request makes exactly four round trips to `A` (the first attempt
and `maxRetry = 3` retries), then `A` is marked dead, then `Group.handleRequest` is re-entered,
`B` is chosen, and the response relayed to the client is the one of `B`. -/
theorem retry_ladder_to_other_endpoint (conf : StatelessSessionPersistence) (up : Upstream)
    (g : Group) (a b : Endpoint) (r : Request) (w : ResponseWriter) (fuel code : Nat)
    (hE : g.Endpoints = [a, b]) (hb : b.Alive = true)
    (hidx : ∀ i, g.balance = .roundRobin i → i < 2) (hr : r.ctx = [])
    (hfirst : ∃ s1, Group.choose conf (fuel + 13) r ((World.mk g w []).record .handleRequest)
      = some (.ok 0, s1))
    (hupA : ∀ log, up log 0 = .failed) (hupB : ∀ log, up log 1 = .response code)
    (hw : w.status = none) :
    ∃ s', Group.handleRequest conf up (fuel + 14) r ⟨g, w, []⟩ = some (.returned, s')
      ∧ s'.log = [.handleRequest, .ServeHTTP 0, .roundTrip 0, .roundTrip 0, .roundTrip 0,
          .roundTrip 0, .storeDead 0, .handleRequest, .ServeHTTP 1, .roundTrip 1]
      ∧ roundTripsTo s'.log 0 = 1 + maxRetry
      ∧ aliveAt s'.group.Endpoints 0 = false ∧ aliveAt s'.group.Endpoints 1 = true
      ∧ s'.w.status = some code ∧ s'.w.origin = some 1 := by
  obtain ⟨s1, hs1⟩ := hfirst
  have hinv : ((World.mk g w []).record .handleRequest).inv 2 :=
    ⟨by simp [World.record, hE], fun i hi _ => hidx i hi⟩
  obtain ⟨res1, s1', hch1, hinv1, hlog1, heps1, hres1⟩ := choose_spec conf (fuel + 13) r
    ((World.mk g w []).record .handleRequest) 2 (by decide) hinv (by omega)
  rw [hs1] at hch1
  cases hch1
  have hst1 : s1.w.status = none := by
    rcases hres1 with ⟨_, _, _, h, _⟩ | ⟨_, h, _⟩
    · rw [h]; exact hw
    · cases h
  simp only [World.record, List.nil_append] at hlog1 heps1
  rw [hE] at heps1
  have hr0 : getRetryFromContext .RETRY_SAME_ENDP r = 0 := by
    simp [getRetryFromContext, hr]
  have hr1 : getRetryFromContext .RETRY_ANOTHER_ENDP r = 0 := by
    simp [getRetryFromContext, hr]
  rw [handleRequest_succ, hs1]
  simp only []
  rw [ServeHTTP_succ, proxy_same_endpoint_retries conf up 0 hupA _ r _ hr0, ErrorHandler_succ,
    getRetry_withValue_same, if_neg (by decide),
    getRetry_withValue_other _ _ _ _ (by decide), getRetry_withValue_other _ _ _ _ (by decide),
    getRetry_withValue_other _ _ _ _ (by decide), hr1, if_pos (by decide), handleRequest_succ]
  -- the second selection
  generalize hr4 : ((((r.WithValue .RETRY_SAME_ENDP 1).WithValue .RETRY_SAME_ENDP 2).WithValue
    .RETRY_SAME_ENDP 3).WithValue .RETRY_ANOTHER_ENDP (0 + 1)) = r4
  generalize hs3 : ((((((((s1.record (.ServeHTTP 0)).onEndpoint 0 fun e =>
      { e with ActiveConnections := uint64Add e.ActiveConnections 1 }).record
      (.roundTrip 0)).record (.roundTrip 0)).record (.roundTrip 0)).record
      (.roundTrip 0)).onEndpoint 0 fun e => { e with Alive := false }).record
      (.storeDead 0)).record .handleRequest = s3
  have hlog3 : s3.log = [.handleRequest, .ServeHTTP 0, .roundTrip 0, .roundTrip 0,
      .roundTrip 0, .roundTrip 0, .storeDead 0, .handleRequest] := by
    rw [← hs3]
    simp [World.record, World.onEndpoint, hlog1]
  have heps3 : s3.group.Endpoints
      = [{ a with ActiveConnections := uint64Add a.ActiveConnections 1, Alive := false }, b] := by
    rw [← hs3]
    simp [World.record, World.onEndpoint, heps1, updateAt]
  have hst3 : s3.w.status = none := by
    rw [← hs3]
    simpa [World.record, World.onEndpoint] using hst1
  have hinv3 : s3.inv 2 := by
    rw [← hs3]
    exact inv_record (inv_record (inv_onEndpoint (inv_record (inv_record (inv_record
      (inv_record (inv_onEndpoint (inv_record hinv1 _) _ _) _) _) _) _) _ _) _) _
  obtain ⟨res, s4, hch, _, hlog4, heps4, hres⟩ := choose_spec conf (fuel + 3) r4 s3 2
    (by decide) hinv3 (by omega)
  rw [hch]
  rcases hres with ⟨k, rfl, hk, hst4, _⟩ | ⟨e, _, _, hdead⟩
  · have hk1 : k = 1 := by
      rw [heps3] at hk
      match k, hk with
      | 0, hk => simp [aliveAt] at hk
      | 1, _ => rfl
      | k + 2, hk => simp [aliveAt] at hk
    subst hk1
    simp only []
    rw [ServeHTTP_succ, proxyServeHTTP_succ, hupB]
    simp only []
    refine ⟨_, rfl, ?_, ?_, ?_, ?_, ?_, ?_⟩
    · simp [World.record, World.onEndpoint, hlog4, hlog3]
    · simp [World.record, World.onEndpoint, hlog4, hlog3, roundTripsTo, maxRetry]
    · simp [World.record, World.onEndpoint, heps4, heps3, updateAt, aliveAt]
    · simp [World.record, World.onEndpoint, heps4, heps3, updateAt, aliveAt, hb]
    · simp [World.record, World.onEndpoint, relay, hst4, hst3]
    · simp [World.record, World.onEndpoint, relay, hst4, hst3]
  · exfalso
    have := hdead b (by rw [heps3]; simp)
    rw [hb] at this
    cases this

/-- Claim C6, as amended, at the input of scenario S4. -/
theorem retry_ladder_to_other_endpoint_witness :
    ∃ s', Group.handleRequest defaultSession upstreamS4 14 requestX ⟨groupAB, freshWriter, []⟩
          = some (.returned, s')
      ∧ s'.log = [.handleRequest, .ServeHTTP 0, .roundTrip 0, .roundTrip 0, .roundTrip 0,
          .roundTrip 0, .storeDead 0, .handleRequest, .ServeHTTP 1, .roundTrip 1]
      ∧ roundTripsTo s'.log 0 = 1 + maxRetry
      ∧ aliveAt s'.group.Endpoints 0 = false ∧ aliveAt s'.group.Endpoints 1 = true
      ∧ s'.w.status = some 200 ∧ s'.w.origin = some 1 :=
  retry_ladder_to_other_endpoint defaultSession upstreamS4 groupAB
    (exampleEndpoint ['A'] true) (exampleEndpoint ['B'] true) requestX freshWriter 0 200
    rfl rfl (fun i h => by cases h; decide) rfl
    ⟨⟨{ groupAB with balance := .roundRobin 1 }, freshWriter, [.handleRequest]⟩, by decide⟩
    (fun _ => rfl) (fun _ => rfl) rfl

/-- Claim C6 as stated fails: in scenario S4 (`A` selected first and always failing, `B`
answering) the request makes four round trips to `A`, not three, before `A` is marked dead. -/
theorem retry_ladder_three_attempts_counterexample :
    (Group.handleRequest defaultSession upstreamS4 14 requestX
        ⟨groupAB, freshWriter, []⟩).map (fun out => out.2.log)
      = some [.handleRequest, .ServeHTTP 0, .roundTrip 0, .roundTrip 0, .roundTrip 0,
          .roundTrip 0, .storeDead 0, .handleRequest, .ServeHTTP 1, .roundTrip 1]
      ∧ (Group.handleRequest defaultSession upstreamS4 14 requestX
          ⟨groupAB, freshWriter, []⟩).map (fun out => roundTripsTo out.2.log 0) = some 4
      ∧ (Group.handleRequest defaultSession upstreamS4 14 requestX
          ⟨groupAB, freshWriter, []⟩).map (fun out => roundTripsTo out.2.log 0) ≠ some 3 := by
  decide

/-- Claim C7, as amended (session stickiness). For every group with `sessionPersistence` on and
every request whose affinity cookie (as `getCookie` returns it) equals the signature of an
alive endpoint at position `k`, where no endpoint before `k` carries the same signature (as
when signatures are unique within the group): the selection of `Group.handleRequest` picks
`k` and leaves the state as it was (no `Set-Cookie` header, balancer not consulted), so the
request is served by `ServeHTTP` of `k`. Whenever one of the round trips the retry ladder
allows on `k` (the first one and the same-endpoint retries left) does not fail, every round
trip of the request goes to `k`, no header is added, the balancer is unchanged, and an
answer is relayed from `k`. The same holds, with answer 503, when all those round trips fail
and no other-endpoint retry is left. -/
theorem session_stickiness (conf : StatelessSessionPersistence) (up : Upstream) (s : World)
    (r : Request) (k : Nat) (e : Endpoint) (fuel : Nat)
    (hsp : s.group.SessionPersistence = true)
    (hcookie : conf.getCookie r = .ok e.Signature)
    (hk : s.group.Endpoints.get? k = some e) (halive : e.Alive = true)
    (hfirst : ∀ m e', m < k → s.group.Endpoints.get? m = some e' →
      e'.Signature ≠ e.Signature) :
    Group.choose conf fuel r s = some (.ok k, s)
      ∧ Group.handleRequest conf up (fuel + 1) r s
          = Endpoint.ServeHTTP conf up fuel k r (s.record .handleRequest)
      ∧ (∀ n, getRetryFromContext .RETRY_SAME_ENDP r + n ≤ maxRetry →
          (∀ m < n, up (s.log ++ [.handleRequest] ++ [.ServeHTTP k]
              ++ List.replicate m (.roundTrip k)) k = .failed) →
          up (s.log ++ [.handleRequest] ++ [.ServeHTTP k]
              ++ List.replicate n (.roundTrip k)) k ≠ .failed →
          ∃ exit s', Group.handleRequest conf up (fuel + 2 * n + 4) r s = some (exit, s')
            ∧ s'.w.header = s.w.header ∧ s'.group.balance = s.group.balance
            ∧ s'.log = s.log ++ [.handleRequest] ++ [.ServeHTTP k]
                ++ List.replicate (n + 1) (.roundTrip k)
            ∧ (∀ code, up (s.log ++ [.handleRequest] ++ [.ServeHTTP k]
                  ++ List.replicate n (.roundTrip k)) k = .response code →
                exit = .returned
                  ∧ (s.w.status = none → s'.w.origin = some k ∧ s'.w.status = some code)))
      ∧ (maxRetry ≤ getRetryFromContext .RETRY_ANOTHER_ENDP r →
          (∀ m ≤ maxRetry - getRetryFromContext .RETRY_SAME_ENDP r,
            up (s.log ++ [.handleRequest] ++ [.ServeHTTP k]
              ++ List.replicate m (.roundTrip k)) k = .failed) →
          ∃ s', Group.handleRequest conf up
                (fuel + 2 * (maxRetry - getRetryFromContext .RETRY_SAME_ENDP r) + 4) r s
              = some (.returned, s')
            ∧ s'.w.header = s.w.header ∧ s'.group.balance = s.group.balance
            ∧ (s.w.status = none → s'.w.status = some 503)
            ∧ s'.log = s.log ++ [.handleRequest] ++ [.ServeHTTP k]
                ++ List.replicate
                  (maxRetry - getRetryFromContext .RETRY_SAME_ENDP r + 1) (.roundTrip k)
                ++ [.storeDead k]) := by
  have hsticky : s.group.sticky conf r = some k := by
    have hget : conf.get r s.group.Endpoints = .ok k := by
      unfold StatelessSessionPersistence.get
      rw [hcookie]
      simp only []
      rw [sessionScan_first e.Signature s.group.Endpoints 0 k e hk rfl hfirst, Nat.zero_add]
    have hal : aliveAt s.group.Endpoints k = true := by
      unfold aliveAt
      rw [hk]
      exact halive
    unfold Group.sticky
    rw [hget]
    simp only []
    rw [if_pos hal]
  have hchoose : ∀ (f : Nat) (s0 : World), s0.group = s.group →
      Group.choose conf f r s0 = some (.ok k, s0) := by
    intro f s0 h0
    unfold Group.choose
    simp only []
    rw [h0, if_pos hsp, hsticky]
  refine ⟨hchoose fuel s rfl, ?_, ?_, ?_⟩
  · rw [handleRequest_succ, hchoose fuel (s.record .handleRequest) rfl]
  · intro n hsame hfail hlast
    obtain ⟨exit, s4, h4, hg4, hh4, hl4, hr4, _, _⟩ := proxy_retries_then_settles conf up k n
      fuel r
      (((s.record .handleRequest).record (.ServeHTTP k)).onEndpoint k fun e =>
        { e with ActiveConnections := uint64Add e.ActiveConnections 1 })
      hsame hfail hlast
    rw [handleRequest_succ, hchoose _ (s.record .handleRequest) rfl]
    simp only []
    rw [ServeHTTP_succ, h4]
    have hbal : s4.group.balance = s.group.balance := by
      rw [hg4]
      rfl
    have hresp : ∀ code, up (s.log ++ [.handleRequest] ++ [.ServeHTTP k]
        ++ List.replicate n (.roundTrip k)) k = .response code →
        exit = .returned
          ∧ (s.w.status = none → s4.w.origin = some k ∧ s4.w.status = some code) := by
      intro code hc
      obtain ⟨he, hw⟩ := hr4 code hc
      refine ⟨he, fun hnone => ?_⟩
      rw [hw]
      simp [World.onEndpoint, World.record, relay, hnone]
    cases exit with
    | returned => exact ⟨_, _, rfl, hh4, hbal, hl4, hresp⟩
    | panicked => exact ⟨_, _, rfl, hh4, hbal, hl4, hresp⟩
  · intro hanother hfail
    obtain ⟨s4, h4, hb4, hw4, hl4, _⟩ := proxy_all_fail_gives_up conf up k
      (maxRetry - getRetryFromContext .RETRY_SAME_ENDP r) fuel r
      (((s.record .handleRequest).record (.ServeHTTP k)).onEndpoint k fun e =>
        { e with ActiveConnections := uint64Add e.ActiveConnections 1 })
      rfl hanother hfail
    rw [handleRequest_succ, hchoose _ (s.record .handleRequest) rfl]
    simp only []
    rw [ServeHTTP_succ, h4]
    refine ⟨_, rfl, ?_, hb4, ?_, hl4⟩
    · show s4.w.header = s.w.header
      rw [hw4]
      simp only [World.onEndpoint, World.record, httpError]
      split <;> rfl
    · intro hnone
      show s4.w.status = some 503
      rw [hw4]
      simp [World.onEndpoint, World.record, httpError, hnone]

/-- Claim C7, as amended, at a concrete input: the cookie names `B` while round robin is at
`A`. -/
theorem session_stickiness_witness :
    Group.choose defaultSession 0 (requestWithCookie "sig-B".toList)
        ⟨stickyGroupAB, freshWriter, []⟩
      = some (.ok 1, ⟨stickyGroupAB, freshWriter, []⟩) :=
  (session_stickiness defaultSession upstreamS4 ⟨stickyGroupAB, freshWriter, []⟩
    (requestWithCookie "sig-B".toList) 1 (exampleEndpoint ['B'] true) 0 rfl (by decide) rfl rfl
    (fun m e' hm hg => by
      obtain rfl : m = 0 := by omega
      cases hg
      decide)).1

/-- Claim C7 as stated fails, on two inputs. First: the group has session persistence on, the
request carries the signature of the alive endpoint at position `1`, and yet the response
gets a `Set-Cookie` header and the round-robin index moves from `1` to `0`, because the
lookup stops at the dead endpoint at position `0` that has the same signature. Second: the
signatures are distinct and the request carries the signature of the alive endpoint `B` at
position `1`, but `B` fails its first round trip and its three same-endpoint retries, is
marked dead, and the request is handed to the group again: the balancer is consulted (the
round-robin index moves from `0` to `1`), a `Set-Cookie` header for `A` is added, and the
answer comes from `A`. -/
theorem session_stickiness_counterexample :
    (stickyGroupAA.SessionPersistence = true
      ∧ defaultSession.getCookie (requestWithCookie "sig-A".toList) = .ok "sig-A".toList
      ∧ stickyGroupAA.Endpoints.get? 1 = some (exampleEndpoint ['A'] true)
      ∧ (exampleEndpoint ['A'] true).Signature = "sig-A".toList
      ∧ (exampleEndpoint ['A'] true).Alive = true
      ∧ stickyGroupAA.balance = .roundRobin 1
      ∧ (Group.handleRequest defaultSession (fun _ _ => .response 200) 5
            (requestWithCookie "sig-A".toList) ⟨stickyGroupAA, freshWriter, []⟩).map
          (fun out => (out.2.w.header, out.2.group.balance, out.2.w.origin))
        = some ([("Set-Cookie".toList, "_gbsps=sig-A; Path=/; HttpOnly".toList)],
            .roundRobin 0, some 1))
    ∧ (stickyGroupAB.SessionPersistence = true
      ∧ defaultSession.getCookie (requestWithCookie "sig-B".toList) = .ok "sig-B".toList
      ∧ stickyGroupAB.Endpoints.get? 1 = some (exampleEndpoint ['B'] true)
      ∧ (exampleEndpoint ['B'] true).Signature = "sig-B".toList
      ∧ (exampleEndpoint ['B'] true).Alive = true
      ∧ (exampleEndpoint ['A'] true).Signature ≠ "sig-B".toList
      ∧ stickyGroupAB.balance = .roundRobin 0
      ∧ (Group.handleRequest defaultSession upstreamSecondFails 30
            (requestWithCookie "sig-B".toList) ⟨stickyGroupAB, freshWriter, []⟩).map
          (fun out => (out.2.w.header, out.2.group.balance, out.2.w.origin))
        = some ([("Set-Cookie".toList, "_gbsps=sig-A; Path=/; HttpOnly".toList)],
            .roundRobin 1, some 0)
      ∧ (Group.handleRequest defaultSession upstreamSecondFails 30
            (requestWithCookie "sig-B".toList) ⟨stickyGroupAB, freshWriter, []⟩).map
          (fun out => out.2.log)
        = some [.handleRequest, .ServeHTTP 1, .roundTrip 1, .roundTrip 1, .roundTrip 1,
            .roundTrip 1, .storeDead 1, .handleRequest, .ServeHTTP 0, .roundTrip 0]) := by
  refine ⟨by decide, by decide, by decide, by decide, by decide, by decide, by decide,
    by decide, by decide⟩

/-- Claim C8, as amended (virtual-host routing is last-match-wins). A group matches when its
address equals the hostname (the `Host` header up to its first `:`, which is the header
without its `:port` whenever the host part itself has no `:`) and its path is compliant.
`grabGroup` returns position `k` exactly when the group at `k` matches and no group after `k`
matches; it returns the error "group not found" exactly when no group matches, and
`Bind.reverseproxyHandler` then answers 503; with groups `example.com` `/` and `example.com`
`/api`, a request for `example.com/api/x` gets the later one. -/
theorem grabGroup_last_match_wins (g : List Group) (r : Request) :
    (∀ k, grabGroup g r = .ok k ↔
        ((∃ grp, g.get? k = some grp
            ∧ grp.Address = CutBefore r.Host ':' ∧ grp.isPathCompliant r = true)
          ∧ ∀ m grp2, k < m → g.get? m = some grp2 →
              ¬ (grp2.Address = CutBefore r.Host ':' ∧ grp2.isPathCompliant r = true)))
      ∧ (grabGroup g r = .err "group not found" ↔
          ∀ grp ∈ g, ¬ (grp.Address = CutBefore r.Host ':' ∧ grp.isPathCompliant r = true))
      ∧ (∀ conf up fuel w, grabGroup g r = .err "group not found" → w.status = none →
          Bind.reverseproxyHandler conf up fuel ⟨true, g⟩ w r
            = some ⟨⟨true, g⟩, { w with status := some 503 }, []⟩)
      ∧ (∀ name port : GoString, ':' ∉ name →
          CutBefore name ':' = name ∧ CutBefore (name ++ ':' :: port) ':' = name)
      ∧ grabGroup groupsRootThenApi ⟨"example.com".toList, "/api/x".toList, [], []⟩ = .ok 1 := by
  have hloop := grabGroup_loop_spec (CutBefore r.Host ':') r g 0 none
  have hgrab : grabGroup g r
      = match grabGroup.loop (CutBefore r.Host ':') r g 0 none with
        | some group => .ok group
        | none => .err "group not found" := rfl
  refine ⟨?_, ?_, ?_, ?_, by decide⟩
  · intro k
    rw [hgrab]
    cases hl : grabGroup.loop (CutBefore r.Host ':') r g 0 none with
    | none =>
      simp only [false_iff, reduceCtorEq]
      rintro ⟨⟨grp, hget, hm⟩, hlast⟩
      have := (hloop k).mpr (Or.inl ⟨grp, Nat.zero_le _, hget, hm, hlast⟩)
      rw [hl] at this
      cases this
    | some k' =>
      simp only [Result.ok.injEq]
      constructor
      · intro hk
        subst hk
        rcases (hloop k').mp hl with ⟨grp, _, hget, hm, hlast⟩ | ⟨hacc, _⟩
        · exact ⟨⟨grp, hget, hm⟩, hlast⟩
        · cases hacc
      · rintro ⟨⟨grp, hget, hm⟩, hlast⟩
        have := (hloop k).mpr (Or.inl ⟨grp, Nat.zero_le _, hget, hm, hlast⟩)
        rw [hl] at this
        exact Option.some.inj this
  · rw [hgrab]
    cases hl : grabGroup.loop (CutBefore r.Host ':') r g 0 none with
    | none =>
      simp only [true_iff]
      intro grp hmem hm
      have hex : ∃ k, ∃ grp, g.get? k = some grp
          ∧ (grp.Address = CutBefore r.Host ':' ∧ grp.isPathCompliant r = true) := by
        obtain ⟨k, hk⟩ := List.get?_of_mem hmem
        exact ⟨k, grp, hk, hm⟩
      have hbound : ∀ k, (∃ grp, g.get? k = some grp
          ∧ (grp.Address = CutBefore r.Host ':' ∧ grp.isPathCompliant r = true))
          → k < g.length := by
        rintro k ⟨grp, hget, _⟩
        exact (List.get?_eq_some.mp hget).1
      classical
      obtain ⟨grp', hget', hm'⟩ := Nat.findGreatest_spec (P := fun k => ∃ grp, g.get? k = some grp
          ∧ (grp.Address = CutBefore r.Host ':' ∧ grp.isPathCompliant r = true))
          (n := g.length) (le_of_lt (hbound _ hex.choose_spec)) hex.choose_spec
      have := (hloop _).mpr (Or.inl ⟨grp', Nat.zero_le _, hget', hm', fun m grp2 hlt hget2 hm2 =>
        Nat.findGreatest_is_greatest hlt (le_of_lt (hbound m ⟨grp2, hget2, hm2⟩))
          ⟨grp2, hget2, hm2⟩⟩)
      rw [hl] at this
      cases this
    | some k' =>
      simp only [false_iff, reduceCtorEq]
      intro hnone
      rcases (hloop k').mp hl with ⟨grp, _, hget, hm, _⟩ | ⟨hacc, _⟩
      · exact hnone grp (List.get?_mem hget) hm
      · cases hacc
  · intro conf up fuel w herr hw
    simp [Bind.reverseproxyHandler, Bind.route, catchUnwind, herr, httpError, hw]
  · intro name port h
    exact ⟨cutBefore_no_sep name ':' h, cutBefore_append name port ':' h⟩

/-- Claim C8 as stated fails: for the header `Host: [::1]:8080` the host without its port is
`[::1]`, the address of the only group, whose path `/` is a prefix of the request path; yet
`grabGroup` answers "group not found", because it compares the address with the header up to
its first `:`, which is `[`. -/
theorem grabGroup_host_port_counterexample :
    requestIPv6.Host = groupIPv6.Address ++ ":8080".toList
      ∧ groupIPv6.isPathCompliant requestIPv6 = true
      ∧ CutBefore requestIPv6.Host ':' = "[".toList
      ∧ grabGroup [groupIPv6] requestIPv6 = .err "group not found" := by
  decide

/-- Claim C9 on the code, at a request whose reverse proxy panics (the upstream answers and
the copy of the body to the client fails): `Bind.reverseproxyHandler` completes, the panic is
recovered by `catchUnwind`, and the `ActiveConnections` counter of the chosen endpoint, `0` at
entry, is left at `1`. -/
theorem activeConnections_drift_on_panic :
    groupAB.Endpoints.map (·.ActiveConnections) = [0, 0]
      ∧ (Bind.reverseproxyHandler defaultSession (fun _ _ => .aborted 200) 4
            ⟨false, [groupAB]⟩ freshWriter requestX).map
          (fun h => (h.bind.Groups.map (fun g => g.Endpoints.map (·.ActiveConnections)),
            h.w.status, h.log))
        = some ([[1, 0]], some 200, [.handleRequest, .ServeHTTP 0, .roundTrip 0]) := by
  decide

/-- Claim C10, as amended (proxy-pass path remainder). Let `p` be the path the `proxy_pass`
director reads: what the default director leaves in `req.URL.Path`, the endpoint address path
joined with the path of the request handed to the reverse proxy. For every group path that is
empty or a prefix of `p`, the remainder joined onto `proxy_pass.path` is `/` when `p` equals
the group path, and otherwise it is `p` with its leading group path removed (removing the
first occurrence of the group path is the same as dropping the prefix); when the address path
is empty or `/` and the request path begins with `/`, `p` is that request path. -/
theorem director_remainder (addressPath groupPath reqURLPath : GoString)
    (hc : groupPath = []
      ∨ HasPrefix (proxyDirectorDefault addressPath reqURLPath) groupPath = true) :
    (proxyDirectorDefault addressPath reqURLPath = groupPath →
        directorRemainder addressPath groupPath reqURLPath = "/".toList)
      ∧ (proxyDirectorDefault addressPath reqURLPath ≠ groupPath →
          directorRemainder addressPath groupPath reqURLPath
              = (proxyDirectorDefault addressPath reqURLPath).drop groupPath.length
            ∧ groupPath ++ directorRemainder addressPath groupPath reqURLPath
              = proxyDirectorDefault addressPath reqURLPath)
      ∧ Replace (proxyDirectorDefault addressPath reqURLPath) groupPath []
          = (proxyDirectorDefault addressPath reqURLPath).drop groupPath.length
      ∧ ((addressPath = [] ∨ addressPath = "/".toList) →
          HasPrefix reqURLPath "/".toList = true →
          proxyDirectorDefault addressPath reqURLPath = reqURLPath) := by
  have hpre : HasPrefix (proxyDirectorDefault addressPath reqURLPath) groupPath = true := by
    rcases hc with h | h
    · rw [h]
      exact hasPrefix_nil _
    · exact h
  obtain ⟨h1, h2, h3⟩ := toJoinPath_of_prefix _ _ hpre
  exact ⟨h1, h2, h3, proxyDirectorDefault_id addressPath reqURLPath⟩

/-- Claim C10, as amended, at a concrete input: address without path, group path `/api`,
inbound path `/api/x`. -/
theorem director_remainder_witness :
    directorRemainder [] "/api".toList "/api/x".toList = "/x".toList :=
  ((director_remainder [] "/api".toList "/api/x".toList (Or.inr (by decide))).2.1
    (by decide)).1

/-- Claim C10 as stated fails: with the endpoint address `http://h/app`, group path `/api` and
inbound path `/api/x` the request is path-compliant and differs from the group path, the
default director leaves `/app/api/x`, and the remainder is `/app/x`, not the inbound path with
its leading `/api` removed, `/x`. -/
theorem director_remainder_counterexample :
    Group.isPathCompliant ⟨[], "/api".toList, false, [], .failover⟩
        ⟨[], "/api/x".toList, [], []⟩ = true
      ∧ "/api/x".toList ≠ "/api".toList
      ∧ proxyDirectorDefault "/app".toList "/api/x".toList = "/app/api/x".toList
      ∧ directorRemainder "/app".toList "/api".toList "/api/x".toList = "/app/x".toList
      ∧ "/api/x".toList.drop "/api".toList.length = "/x".toList
      ∧ directorRemainder "/app".toList "/api".toList "/api/x".toList
        ≠ "/api/x".toList.drop "/api".toList.length := by
  decide

/-- Claim C11 (affinity cookie format). For every cookie name, settings list, group path and
endpoint signature, `setCookie` appends exactly one header entry, named `Set-Cookie`, and
leaves the rest of the response untouched; its value is `<name>=<signature>`, then
`; Path=<group.path>` iff the group path is non-empty, then `; ` and the settings joined with
`; ` iff the settings list is non-empty, where `<name>` is the configured cookie name, or
`_gbsps` when that is empty; for the default name, path `/` and settings `[HttpOnly]` the
value is `_gbsps=<sig>; Path=/; HttpOnly`. -/
theorem setCookie_format (s : StatelessSessionPersistence) (w : ResponseWriter)
    (group : Group) (endpoint : Endpoint) :
    (s.setCookie w group endpoint).header
        = w.header ++ [("Set-Cookie".toList,
            affinityCookieFormat (if s.CookieName = [] then "_gbsps".toList else s.CookieName)
              endpoint.Signature group.Path s.CookieSettings)]
      ∧ (s.setCookie w group endpoint).status = w.status
      ∧ (s.setCookie w group endpoint).origin = w.origin
      ∧ (∀ sig : GoString,
          (defaultSession.setCookie freshWriter groupAB
              { exampleEndpoint ['A'] true with Signature := sig }).header
            = [("Set-Cookie".toList, "_gbsps=".toList ++ sig ++ "; Path=/; HttpOnly".toList)]) := by
  refine ⟨?_, rfl, rfl, ?_⟩
  · unfold StatelessSessionPersistence.setCookie affinityCookieFormat
      StatelessSessionPersistence.getStatelessPersistentSessionCookieName
    rw [join_eq_joinedSettings _ rfl]
    by_cases hp : group.Path = [] <;> by_cases hs : s.CookieSettings = []
      <;> simp [hp, hs]
  · intro sig
    simp [StatelessSessionPersistence.setCookie, defaultSession, freshWriter, groupAB,
      StatelessSessionPersistence.getStatelessPersistentSessionCookieName, Join,
      List.intercalate, exampleEndpoint]

/-- Claim C12, as amended (round-robin probe bound). For `N` endpoints (in particular
`N ≥ 2`), every alive assignment and every current index below `N`, one sequential call of
`roundRobin.balanced` returns after at most `N + 1` reads of an alive flag: at most `N` reads,
ending with an endpoint, when some endpoint is alive, and exactly `N + 1` reads, ending with
the error "all endpoints down", when all endpoints are dead (the slot the call started at is
read a second time before the tried set is found full). -/
theorem roundRobin_probe_bound (endpoints : List Endpoint) (i fuel : Nat)
    (hN : endpoints.length < 2 ^ 32) (hi : i < endpoints.length)
    (hf : endpoints.length + 1 ≤ fuel) :
    ∃ sel, roundRobin.balanced endpoints fuel i [] 0 = some sel
      ∧ sel.probes ≤ endpoints.length + 1
      ∧ ((∃ e ∈ endpoints, e.Alive = true) →
          sel.probes ≤ endpoints.length ∧ ∃ j, sel.result = .ok j)
      ∧ ((∀ e ∈ endpoints, e.Alive = false) →
          sel.probes = endpoints.length + 1 ∧ sel.result = .err "all endpoints down") := by
  have hpos : 0 < endpoints.length := by omega
  by_cases h : ∃ e ∈ endpoints, e.Alive = true
  · have hex : ∃ j, aliveAt endpoints j = true := by
      obtain ⟨k, hk, _⟩ := first_alive_of_mem endpoints h
      exact ⟨k, hk⟩
    obtain ⟨d, hd, hdead, ha⟩ := exists_first_alive endpoints i hi hex
    refine ⟨_, balanced_skip endpoints hN d fuel i [] 0 hi (by omega) (by simp; omega) hdead ha,
      ?_, ?_, ?_⟩
    · simp only []
      omega
    · intro _
      refine ⟨?_, _, rfl⟩
      simp only []
      omega
    · intro hall
      obtain ⟨e, he, hal⟩ := h
      rw [hall e he] at hal
      cases hal
  · have hall : ∀ e ∈ endpoints, e.Alive = false := by
      intro e he
      by_contra hne
      exact h ⟨e, he, by simpa using hne⟩
    have hdead : ∀ j < endpoints.length, aliveAt endpoints j = false := by
      intro j _
      by_contra hj
      obtain ⟨e, _, hm, hal⟩ := aliveAt_mem (by simpa using hj : aliveAt endpoints j = true)
      rw [hall e hm] at hal
      cases hal
    have := balanced_allDead endpoints hN hpos hdead i endpoints.length 0 fuel 0 (by omega) hf
    rw [Nat.add_zero, Nat.mod_eq_of_lt hi] at this
    refine ⟨_, this, ?_, ?_, ?_⟩
    · simp
    · intro hsome
      exact absurd hsome h
    · intro _
      exact ⟨by simp, rfl⟩

/-- Claim C12, as amended, at a concrete input: `A, B (dead), C` with the index at `B`. -/
theorem roundRobin_probe_bound_witness :
    ∃ sel, roundRobin.balanced endpointsABdeadC 4 1 [] 0 = some sel
      ∧ sel.probes ≤ endpointsABdeadC.length + 1
      ∧ ((∃ e ∈ endpointsABdeadC, e.Alive = true) →
          sel.probes ≤ endpointsABdeadC.length ∧ ∃ j, sel.result = .ok j)
      ∧ ((∀ e ∈ endpointsABdeadC, e.Alive = false) →
          sel.probes = endpointsABdeadC.length + 1
            ∧ sel.result = .err "all endpoints down") :=
  roundRobin_probe_bound endpointsABdeadC 1 4 (by decide) (by decide) (by decide)

/-- Claim C12 as stated fails: with `N = 2` endpoints, both dead, and the index at `0`, one
call reads an alive flag three times (slots `0`, `1`, and `0` again) before it returns the
error "all endpoints down". -/
theorem roundRobin_probe_bound_counterexample :
    endpointsAllDead.length = 2
      ∧ roundRobin.balanced endpointsAllDead 3 0 [] 0
          = some ⟨.err "all endpoints down", 1, 3⟩
      ∧ ¬ (3 ≤ endpointsAllDead.length) := by
  decide

/-- Claim C13 (the same-endpoint retry counter is carried over). For every request whose
same-endpoint counter has reached `maxRetry = 3`: the request the error handler passes to
`Group.handleRequest` keeps that counter; a failed round trip to any endpoint `k` is followed,
without another round trip to `k`, by `alive = false` on `k` and then by the other-endpoint
step (`Group.handleRequest` with that counter incremented), or by 503 when the other-endpoint
counter is at `3` too; and over the rest of the request, from the re-entry of
`Group.handleRequest` on, every endpoint is chosen at most once and gets exactly one round
trip when it is chosen. -/
theorem same_endpoint_counter_carried_over (conf : StatelessSessionPersistence)
    (up : Upstream) (r : Request) (s : World) (fuel : Nat)
    (hN : s.group.Endpoints.length < 2 ^ 32)
    (hidx : ∀ i, s.group.balance = .roundRobin i → 2 ≤ s.group.Endpoints.length →
      i < s.group.Endpoints.length)
    (hsame : maxRetry ≤ getRetryFromContext .RETRY_SAME_ENDP r)
    (hf : 4 * maxRetry + s.group.Endpoints.length + 4 ≤ fuel) :
    (∀ v, getRetryFromContext .RETRY_SAME_ENDP (r.WithValue .RETRY_ANOTHER_ENDP v)
        = getRetryFromContext .RETRY_SAME_ENDP r)
      ∧ (∀ (k f : Nat) (s0 : World), up s0.log k = .failed →
          ∃ s1, s1.log = s0.log ++ [.roundTrip k] ++ [.storeDead k]
            ∧ aliveAt s1.group.Endpoints k = false
            ∧ proxyServeHTTP conf up (f + 2) k r s0
              = if getRetryFromContext .RETRY_ANOTHER_ENDP r < maxRetry then
                  Group.handleRequest conf up f
                    (r.WithValue .RETRY_ANOTHER_ENDP
                      (getRetryFromContext .RETRY_ANOTHER_ENDP r + 1)) s1
                else some (.returned, { s1 with w := httpError s1.w 503 }))
      ∧ ∃ exit s', Group.handleRequest conf up fuel r s = some (exit, s')
          ∧ ∀ k, ∃ c, c ≤ 1
              ∧ roundTripsTo s'.log k = roundTripsTo s.log k + c
              ∧ servesOf s'.log k = servesOf s.log k + c := by
  refine ⟨fun v => getRetry_withValue_other _ _ _ _ (by decide), ?_, ?_⟩
  · intro k f s0 hup
    refine ⟨((s0.record (.roundTrip k)).onEndpoint k fun e => { e with Alive := false }).record
      (.storeDead k), rfl, aliveAt_updateAt_store_false _ k, ?_⟩
    rw [proxyServeHTTP_succ, hup]
    simp only []
    rw [ErrorHandler_succ, if_neg (by omega)]
    rfl
  · obtain ⟨exit, s', h, _, _, hcnt⟩ := ladder_single_attempts conf up
      s.group.Endpoints.length hN (maxRetry - getRetryFromContext .RETRY_ANOTHER_ENDP r) fuel r s
      hsame rfl
      (by
        have : maxRetry - getRetryFromContext .RETRY_ANOTHER_ENDP r ≤ maxRetry :=
          Nat.sub_le _ _
        omega)
      ⟨rfl, hidx⟩
    refine ⟨exit, s', h, fun k => ?_⟩
    obtain ⟨c, hc, h1, h2⟩ := hcnt k
    refine ⟨c, ?_, h1, h2⟩
    split at hc <;> omega

/-- Claim C13 at a concrete input: five alive endpoints that all refuse the connection, entered
after the retries on a first endpoint are used up. -/
theorem same_endpoint_counter_carried_over_witness :
    ∃ exit s', Group.handleRequest defaultSession (fun _ _ => .failed) 21 requestAfterRetries
          ⟨groupOfFive, freshWriter, []⟩ = some (exit, s')
      ∧ ∀ k, ∃ c, c ≤ 1
          ∧ roundTripsTo s'.log k = roundTripsTo ([] : List Event) k + c
          ∧ servesOf s'.log k = servesOf ([] : List Event) k + c :=
  (same_endpoint_counter_carried_over defaultSession (fun _ _ => .failed) requestAfterRetries
    ⟨groupOfFive, freshWriter, []⟩ 21 (by decide) (fun i h _ => by cases h) (by decide)
    (by decide)).2.2

theorem carried_counter_example :
    (Group.handleRequest defaultSession (fun _ _ => .failed) 21 requestAfterRetries
        ⟨groupOfFive, freshWriter, []⟩).map (fun out => (out.2.log, out.2.w.status))
      = some ([.handleRequest, .ServeHTTP 0, .roundTrip 0, .storeDead 0,
          .handleRequest, .ServeHTTP 1, .roundTrip 1, .storeDead 1,
          .handleRequest, .ServeHTTP 2, .roundTrip 2, .storeDead 2], some 503) := by
  decide

end Minibalancer
